import Mathlib

/-! Byteshell: tokenizer, history log, builtins, launcher, dispatcher and loop.

A shallow embedding of `Main.cpp`.  A `std::string` is the list of its
characters, a `std::vector<std::string>` a list of such lists.  The `Node`
objects created by `make_shared` live in an explicit heap, addressed by their
index, so that the globals `head` and `cur` are (nullable) addresses.  The
state of the process (`World`) adds the two output streams, the working
directory, the input and a record of the system calls; the answers of the
operating system to `fork`, `execvp`, `waitpid` and `chdir` are a parameter
(`Env`).  A call ends in one of the ways of `Outcome`.
-/

namespace Byteshell

/-- A `std::string`, as the sequence of its characters. -/
abbrev Str := List Char

/-! ## Tokenizer (`split_input_line`) -/

/-- The macro `SHELL_TOK_DELIM`, `" \t\r\n\a"`: space, tab, carriage return,
newline, bell. -/
def SHELL_TOK_DELIM : Str := [' ', '\t', '\r', '\n', Char.ofNat 7]

/-- The scan of `std::string::find_first_of`: `l` is the part of the string
that starts at index `i`; the result is the index of the first character that
occurs in `delims`, and `none` stands for `string::npos`. -/
def find_from (delims : Str) : Str → Nat → Option Nat
  | [], _ => none
  | c :: cs, i => if c ∈ delims then some i else find_from delims cs (i + 1)

/-- The call `line.find_first_of(delims, pos)`. -/
def find_first_of (line delims : Str) (pos : Nat) : Option Nat :=
  find_from delims (line.drop pos) pos

/-- The call `line.substr(pos, n)`, for `pos` not beyond the end of the line. -/
def substr (line : Str) (pos n : Nat) : Str := (line.drop pos).take n

/-- The call `line.substr(pos)`, for `pos` not beyond the end of the line. -/
def substr_from (line : Str) (pos : Nat) : Str := line.drop pos

/-- The `while` loop of `split_input_line` followed by the final `if`, started
with the local variables `pos` and `tokens`.  The `size_t` values `pos` and
`found` stay at most `line.size()`, so their arithmetic does not wrap. -/
def split_loop (line : Str) (pos : Nat) (tokens : List Str) : List Str :=
  match _h : find_first_of line SHELL_TOK_DELIM pos with
  | some found =>
    split_loop line (found + 1)
      (if found ≠ pos then tokens ++ [substr line pos (found - pos)] else tokens)
  | none =>
    if pos < line.length then tokens ++ [substr_from line pos] else tokens
termination_by line.length - pos
decreasing_by
  have key : ∀ (l : Str) (i r : Nat),
      find_from SHELL_TOK_DELIM l i = some r → i ≤ r ∧ r < i + l.length := by
    intro l
    induction l with
    | nil => intro i r hr; simp [find_from] at hr
    | cons c cs ih =>
      intro i r hr
      simp only [find_from] at hr
      split at hr
      · simp only [Option.some.injEq] at hr
        subst hr
        simp
      · have := ih (i + 1) r hr
        simp only [List.length_cons]
        omega
  have hk := key (line.drop pos) pos found _h
  simp only [List.length_drop] at hk
  omega

/-- The function `split_input_line`. -/
def split_input_line (line : Str) : List Str :=
  split_loop line 0 []

/-- Whether a character is one of the five delimiters. -/
def is_delim (c : Char) : Bool := decide (c ∈ SHELL_TOK_DELIM)

/-- The reference tokenization of the specification: split the line at every
delimiter character and discard the empty pieces. -/
def tokenize_reference (line : Str) : List Str :=
  (line.splitOnP is_delim).filter (fun piece => !piece.isEmpty)


/-! ## History log (`add_to_history`, `display_history`) -/

/-- The `struct Node`.  The field `next` is a `shared_ptr<Node>`: `none` is
`nullptr`, `some a` points to the node at address `a` of the heap. -/
structure Node where
  command : Str
  next : Option Nat
deriving DecidableEq, Repr

/-- The part of the program state the history functions use: the `Node`
objects created by `make_shared` so far (the address of a node is its index;
nodes that the program no longer references are kept, they are unreachable)
and the globals `head` and `cur`. -/
structure History where
  heap : List Node
  head : Option Nat
  cur : Option Nat
deriving DecidableEq, Repr

/-- The state the program starts in: `head = nullptr`, `cur = nullptr`. -/
def History.initial : History := History.mk [] none none

/-- The call `make_shared<Node>()`: a value-initialised node (empty `command`,
null `next`) at a fresh address; returns the new heap and the address. -/
def make_shared (heap : List Node) : List Node × Nat :=
  (heap ++ [Node.mk [] none], heap.length)

/-- The read `p->command`; `none` (undefined behaviour) when `p` is null or is
not the address of a node. -/
def get_command (heap : List Node) (p : Option Nat) : Option Str :=
  match p with
  | none => none
  | some a => (heap[a]?).map Node.command

/-- The assignment `p->command = v`; `none` when `p` is null or is not the
address of a node. -/
def set_command (heap : List Node) (p : Option Nat) (v : Str) : Option (List Node) :=
  match p with
  | none => none
  | some a => (heap[a]?).map (fun n => heap.set a (Node.mk v n.next))

/-- The assignment `p->next = q`; `none` when `p` is null or is not the
address of a node. -/
def set_next (heap : List Node) (p : Option Nat) (q : Option Nat) : Option (List Node) :=
  match p with
  | none => none
  | some a => (heap[a]?).map (fun n => heap.set a (Node.mk n.command q))

/-- The function `append_strings`. -/
def append_strings (str1 str2 : Str) : Str := str1 ++ str2

/-- The function `add_to_history`, on the state it reads and writes.  The
result is `none` when the call dereferences a null pointer or indexes `args`
out of range. -/
def add_to_history (args : List Str) (s : History) : Option History := do
  -- shared_ptr<Node> ptr = make_shared<Node>();
  let (heap0, _) := make_shared s.heap
  if s.head = none then
    -- head = make_shared<Node>(); head->command = "";
    let (heap1, a) := make_shared heap0
    let head := some a
    let heap2 ← set_command heap1 head []
    let space : Str := [' ']
    -- if (!args.empty()) head->command = append_strings(args[0], space);
    let heap3 ←
      if !args.isEmpty then do
        let arg0 ← args[0]?
        set_command heap2 head (append_strings arg0 space)
      else pure heap2
    -- if (args.size() > 1) head->command = append_strings(head->command, args[1]);
    let heap4 ←
      if args.length > 1 then do
        let command ← get_command heap3 head
        let arg1 ← args[1]?
        set_command heap3 head (append_strings command arg1)
      else pure heap3
    -- head->next = nullptr; cur = head;
    let heap5 ← set_next heap4 head none
    pure (History.mk heap5 head head)
  else
    -- ptr = make_shared<Node>();
    let (heap1, a) := make_shared heap0
    let ptr := some a
    let space : Str := [' ']
    -- if (!args.empty()) ptr->command = append_strings(args[0], space);
    let heap2 ←
      if !args.isEmpty then do
        let arg0 ← args[0]?
        set_command heap1 ptr (append_strings arg0 space)
      else pure heap1
    -- if (args.size() > 1) ptr->command = append_strings(ptr->command, args[1]);
    let heap3 ←
      if args.length > 1 then do
        let command ← get_command heap2 ptr
        let arg1 ← args[1]?
        set_command heap2 ptr (append_strings command arg1)
      else pure heap2
    -- cur->next = ptr; ptr->next = nullptr; cur = ptr;
    let heap4 ← set_next heap3 s.cur ptr
    let heap5 ← set_next heap4 ptr none
    pure (History.mk heap5 s.head ptr)

/-- The successive calls `add_to_history(calls[0])`, `add_to_history(calls[1])`,
... from the state `s`. -/
def record_all : List (List Str) → History → Option History
  | [], s => some s
  | args :: rest, s => (add_to_history args s).bind (record_all rest)

/-- The value `add_to_history` computes for the `command` field of the new
node: empty, then `args[0]` and a space when `args` is not empty, then
`args[1]` appended when there is one. -/
def history_command (args : List Str) : Str :=
  let space : Str := [' ']
  let command0 : Str := []
  let command1 := if !args.isEmpty then append_strings (args.getD 0 []) space else command0
  if args.length > 1 then append_strings command1 (args.getD 1 []) else command1

/-- The nodes met by following `next` from `p` until `nullptr`, each with its
address and its `command`; `none` when a pointer leaves the heap or when
`fuel` nodes did not reach `nullptr`. -/
def list_from : Nat → List Node → Option Nat → Option (List (Nat × Str))
  | 0, _, _ => none
  | _ + 1, _, none => some []
  | fuel + 1, heap, some a =>
    match heap[a]? with
    | none => none
    | some n => (list_from fuel heap n.next).map (fun l => (a, n.command) :: l)

/-- The list that starts at `head`, walked for at most `heap.length + 1` steps
(a list of distinct nodes of the heap is not longer). -/
def history_list (s : History) : Option (List (Nat × Str)) :=
  list_from (s.heap.length + 1) s.heap s.head

/-- The entries of the history, in list order. -/
def history_entries (s : History) : Option (List Str) :=
  (history_list s).map (fun l => l.map Prod.snd)

/-- The addresses of the nodes of the history, in list order. -/
def history_nodes (s : History) : Option (List Nat) :=
  (history_list s).map (fun l => l.map Prod.fst)

/-- An `int` result of an arithmetic operation, reduced to 32 bits in two's
complement: the value the increment `i++` of `display_history` leaves in `i`. -/
def int_wrap (x : Int) : Int := (x + 2 ^ 31) % 2 ^ 32 - 2 ^ 31

/-- What `cout << i` writes for an `int`: the decimal digits, after a minus
sign when `i` is negative. -/
def int_to_decimal (i : Int) : Str :=
  if i < 0 then '-' :: Nat.toDigits 10 i.natAbs else Nat.toDigits 10 i.toNat

/-- The `while` loop of `display_history`, with the local variables `ptr` and
`i`; the result is the text written to `cout`.  It is `none` when a pointer
leaves the heap or when `fuel` iterations did not reach `nullptr`. -/
def display_history_loop : Nat → List Node → Option Nat → Int → Option Str
  | 0, _, _, _ => none
  | _ + 1, _, none, _ => some []
  | fuel + 1, heap, some a, i =>
    match heap[a]? with
    | none => none
    | some n =>
      (display_history_loop fuel heap n.next (int_wrap (i + 1))).map
        (fun out => [' '] ++ int_to_decimal i ++ [' '] ++ n.command ++ ['\n'] ++ out)

/-- The function `display_history`: the text written to `cout` and the
returned value. -/
def display_history (fuel : Nat) (_args : List Str) (s : History) : Option (Str × Int) :=
  (display_history_loop fuel s.heap s.head 1).map (fun out => (out, 1))

/-- One line of the listing of the specification: a space, the decimal number
`i`, a space, the entry, a newline. -/
def listing_line (i : Nat) (entry : Str) : Str :=
  [' '] ++ Nat.toDigits 10 i ++ [' '] ++ entry ++ ['\n']

/-- The listing of the specification: the entries in order, numbered from
`first`. -/
def listing : Nat → List Str → Str
  | _, [] => []
  | first, entry :: rest => listing_line first entry ++ listing (first + 1) rest

/-! ## Processes, builtins, dispatcher and loop -/

/-- The value of the macro `EXIT_SUCCESS`. -/
def EXIT_SUCCESS : Int := 0

/-- The value of the macro `EXIT_FAILURE`. -/
def EXIT_FAILURE : Int := 1

/-- What a call of `waitpid` with `WUNTRACED` reports about the child. -/
inductive WaitStatus where
  | exited (code : Nat)
  | signaled (sig : Nat)
  | stopped (sig : Nat)
deriving DecidableEq, Repr

/-- The macro `WIFEXITED`. -/
def WIFEXITED : WaitStatus → Bool
  | WaitStatus.exited _ => true
  | _ => false

/-- The macro `WIFSIGNALED`. -/
def WIFSIGNALED : WaitStatus → Bool
  | WaitStatus.signaled _ => true
  | _ => false

/-- What the operating system answers to one call of `fork` and to the calls
that follow it: the value `fork` returns in the process that is followed
(`0` in the child, negative on failure, the child's pid in the parent), the
error text `perror` would print after a failed `fork` or `execvp`, whether
`execvp` fails in the child, and the statuses that the successive `waitpid`
calls on the child report in the parent (after the last one the child changes
state no more, and a further `waitpid` does not return). -/
structure ForkOutcome where
  pid : Int
  error : Str
  exec_fails : Bool
  statuses : List WaitStatus

/-- The operating system, as far as the shell calls it: the outcome of the
`n`-th call of `fork`, and `chdir`, which maps the working directory and a
path to the new working directory or to an error text. -/
structure Env where
  fork : Nat → ForkOutcome
  chdir : Str → Str → Except Str Str

/-- The state of the shell process: the history, the text written to `cout`
and to `cerr`, the working directory, the lines that the next reads of the
shell from `cin` return, how `cin`
ends (`none` at end-of-stream, an error text when the read fails otherwise),
and a record of the system calls made: the number of `fork` calls, the paths
passed to `chdir`, the pids passed to `waitpid`. -/
structure World where
  history : History
  cout : Str
  cerr : Str
  cwd : Str
  cin : List Str
  cin_error : Option Str
  forks : Nat
  chdirs : List Str
  waits : List Int
deriving DecidableEq, Repr

/-- The state at program start, with the given working directory and input. -/
def World.initial (cwd : Str) (cin : List Str) (cin_error : Option Str) : World :=
  World.mk History.initial [] [] cwd cin cin_error 0 [] []

/-- How a call ends: it returns a value, or the process calls `exit`, or
`execvp` replaces the process image by the program of `argv`, or `waitpid`
never returns, or the behaviour is undefined (a null pointer is dereferenced,
a vector is indexed out of range, or the history list is not null-terminated). -/
inductive Outcome (α : Type) where
  | returned (value : α) (w : World)
  | exited (code : Int) (w : World)
  | replaced (argv : List Str) (w : World)
  | blocked (w : World)
  | undefined
deriving DecidableEq, Repr

/-- The text `cout << text`. -/
def World.write_cout (w : World) (text : Str) : World :=
  { w with cout := w.cout ++ text }

/-- The text `cerr << text`. -/
def World.write_cerr (w : World) (text : Str) : World :=
  { w with cerr := w.cerr ++ text }

/-- The call `perror(s)` when the error text of `errno` is `msg`. -/
def perror (s msg : Str) (w : World) : World :=
  w.write_cerr (s ++ ": ".toList ++ msg ++ ['\n'])

/-- The vector `built_in_commands`. -/
def built_in_commands : List Str :=
  ["cd".toList, "help".toList, "exit".toList, "history".toList]

/-- The function `get_num_builtins`. -/
def get_num_builtins : Nat := built_in_commands.length

/-- The function `change_directory`. -/
def change_directory (env : Env) (args : List Str) (w : World) : Outcome Int :=
  if args.length < 2 then
    Outcome.returned 1 (w.write_cerr "shell: expected argument to \"cd\"\n".toList)
  else
    match args[1]? with
    | none => Outcome.undefined
    | some path =>
      let w1 := { w with chdirs := w.chdirs ++ [path] }
      match env.chdir w.cwd path with
      | Except.ok dir => Outcome.returned 1 { w1 with cwd := dir }
      | Except.error msg => Outcome.returned 1 (perror "shell".toList msg w1)

/-- The text `display_help` writes for the list `commands` of names. -/
def help_text (commands : List Str) : Str :=
  "Type program names and arguments, and hit enter.\n".toList ++
    "The following are built-in commands:\n".toList ++
    (commands.map (fun command => "  ".toList ++ command ++ ['\n'])).flatten ++
    "Use the man command for information on other programs.\n".toList

/-- The function `display_help`. -/
def display_help (_env : Env) (_args : List Str) (w : World) : Outcome Int :=
  Outcome.returned 1 (w.write_cout (help_text built_in_commands))

/-- The function `exit_shell`. -/
def exit_shell (_env : Env) (_args : List Str) (w : World) : Outcome Int :=
  Outcome.returned 0 w

/-- The function `display_history` as a builtin, on the state of the process:
the list is walked for at most `heap.length + 1` steps. -/
def display_history_builtin (_env : Env) (args : List Str) (w : World) : Outcome Int :=
  match display_history (w.history.heap.length + 1) args w.history with
  | none => Outcome.undefined
  | some (out, value) => Outcome.returned value (w.write_cout out)

/-- The array `built_in_functions`. -/
def built_in_functions : List (Env → List Str → World → Outcome Int) :=
  [change_directory, display_help, exit_shell, display_history_builtin]

/-- The `do ... while` loop of `launch_shell` in the parent: each iteration
calls `waitpid(pid, &status, WUNTRACED)`, which reports the next status. -/
def wait_loop (pid : Int) : List WaitStatus → World → Outcome Int
  | [], w => Outcome.blocked { w with waits := w.waits ++ [pid] }
  | status :: later, w =>
    let w1 := { w with waits := w.waits ++ [pid] }
    if !WIFEXITED status && !WIFSIGNALED status then wait_loop pid later w1
    else Outcome.returned 1 w1

/-- The function `launch_shell`. -/
def launch_shell (env : Env) (args : List Str) (w : World) : Outcome Int :=
  let os := env.fork w.forks
  let w1 := { w with forks := w.forks + 1 }
  let pid := os.pid
  if pid = 0 then
    -- child process: execvp returns only when it fails
    if os.exec_fails then Outcome.exited EXIT_FAILURE (perror "shell".toList os.error w1)
    else Outcome.replaced args w1
  else if pid < 0 then
    -- error forking
    Outcome.returned 1 (perror "shell".toList os.error w1)
  else
    -- parent process
    wait_loop pid os.statuses w1

/-- The `for` loop of `execute_shell` from index `i`, with `remaining` the
number of iterations left, `get_num_builtins() - i`, followed by the final
call of `launch_shell`. -/
def execute_shell_loop (env : Env) (args : List Str) (w : World) :
    Nat → Nat → Outcome Int
  | 0, _ => launch_shell env args w
  | remaining + 1, i =>
    match args[0]?, built_in_commands[i]?, built_in_functions[i]? with
    | some arg0, some name, some handler =>
      if arg0 = name then handler env args w
      else execute_shell_loop env args w remaining (i + 1)
    | _, _, _ => Outcome.undefined

/-- The function `execute_shell`. -/
def execute_shell (env : Env) (args : List Str) (w : World) : Outcome Int :=
  if args.isEmpty then Outcome.returned 1 w
  else execute_shell_loop env args w get_num_builtins 0

/-- The function `read_input_line`: `getline` takes the next line of `cin`;
when there is none the process exits, with success at end-of-stream. -/
def read_input_line (w : World) : Outcome Str :=
  match w.cin with
  | line :: later => Outcome.returned line { w with cin := later }
  | [] =>
    match w.cin_error with
    | none => Outcome.exited EXIT_SUCCESS w
    | some msg => Outcome.exited EXIT_FAILURE (perror "shell: getline\n".toList msg w)

/-- The function `shell_loop`, for at most `fuel` iterations of its
`do ... while` loop; `none` when the iterations did not end the loop. -/
def shell_loop (env : Env) : Nat → World → Option (Outcome Unit)
  | 0, _ => none
  | fuel + 1, w =>
    match read_input_line (w.write_cout "> ".toList) with
    | Outcome.returned line w1 =>
      let args := split_input_line line
      match add_to_history args w1.history with
      | none => some Outcome.undefined
      | some h =>
        match execute_shell env args { w1 with history := h } with
        | Outcome.returned status w2 =>
          if status ≠ 0 then shell_loop env fuel w2 else some (Outcome.returned () w2)
        | Outcome.exited code w2 => some (Outcome.exited code w2)
        | Outcome.replaced argv w2 => some (Outcome.replaced argv w2)
        | Outcome.blocked w2 => some (Outcome.blocked w2)
        | Outcome.undefined => some Outcome.undefined
    | Outcome.exited code w1 => some (Outcome.exited code w1)
    | Outcome.replaced argv w1 => some (Outcome.replaced argv w1)
    | Outcome.blocked w1 => some (Outcome.blocked w1)
    | Outcome.undefined => some Outcome.undefined

/-- The function `main`: the loop, then `return EXIT_SUCCESS`. -/
def main (env : Env) (fuel : Nat) (w : World) : Option (Outcome Int) :=
  match shell_loop env fuel w with
  | none => none
  | some (Outcome.returned _ w1) => some (Outcome.returned EXIT_SUCCESS w1)
  | some (Outcome.exited code w1) => some (Outcome.exited code w1)
  | some (Outcome.replaced argv w1) => some (Outcome.replaced argv w1)
  | some (Outcome.blocked w1) => some (Outcome.blocked w1)
  | some Outcome.undefined => some Outcome.undefined

/-- Whether the first token of a line is `exit`. -/
def is_exit_line (line : Str) : Bool :=
  (split_input_line line).head? = some "exit".toList

/-- The lines of the input up to and including the first line whose first
token is `exit`, or all of them when there is no such line. -/
def lines_until_exit : List Str → List Str
  | [] => []
  | line :: later => if is_exit_line line then [line] else line :: lines_until_exit later

/-- An operating system in which every `fork` call is answered in the parent
(the process followed is the shell, not a forked child) and every child is
reported exited or signaled by some `waitpid`. -/
def Env.children_end (env : Env) : Prop :=
  ∀ n, (env.fork n).pid ≠ 0 ∧
    ((env.fork n).pid > 0 →
      ∃ status ∈ (env.fork n).statuses, WIFEXITED status = true ∨ WIFSIGNALED status = true)

/-! ## Predicates used in the proofs -/

/-- A list segment: `IsSeg heap p l q` says that following `next` from the
pointer `p` visits exactly the nodes of `l` (address and `command` of each)
and arrives at the pointer `q`. -/
def IsSeg (heap : List Node) : Option Nat → List (Nat × Str) → Option Nat → Prop
  | p, [], q => p = q
  | p, x :: rest, q =>
    p = some x.1 ∧ ∃ nx, heap[x.1]? = some (Node.mk x.2 nx) ∧ IsSeg heap nx rest q

/-- The invariant of the history: `head` starts a null-terminated list of
distinct allocated nodes, namely `l`, and `cur` is its last node (null when
the list is empty). -/
def HistoryInv (s : History) (l : List (Nat × Str)) : Prop :=
  IsSeg s.heap s.head l none ∧ (l.map Prod.fst).Nodup ∧
    (∀ x ∈ l, x.1 < s.heap.length) ∧ s.cur = l.getLast?.map Prod.fst ∧
    l.length ≤ s.heap.length

/-- The text `display_history` writes for the entries `es` when its counter
starts at `i`; the counter is an `int`. -/
def listing_int : Int → List Str → Str
  | _, [] => []
  | i, entry :: rest =>
    [' '] ++ int_to_decimal i ++ [' '] ++ entry ++ ['\n'] ++
      listing_int (int_wrap (i + 1)) rest

/-- The two-token summary of the specification: the first token, then, only
when a second token is present, a single space and the second token; the
empty string for the empty vector. -/
def summary_reference : List Str → Str
  | [] => []
  | [token] => token
  | token :: second :: _ => token ++ [' '] ++ second

/-- What every dispatch satisfies: a call that returns leaves the history and
the input untouched and returns 0 for `exit` as first token and 1 otherwise;
a call that ends the process by `exit` does so with `EXIT_FAILURE`. -/
def DispatchOk (args : List Str) (w : World) : Outcome Int → Prop
  | Outcome.returned v w2 =>
    w2.history = w.history ∧ w2.cin = w.cin ∧ w2.cin_error = w.cin_error ∧
      ((v = 0 ∧ args.head? = some "exit".toList) ∨ (v = 1 ∧ args.head? ≠ some "exit".toList))
  | Outcome.exited code _ => code = EXIT_FAILURE
  | _ => True

/-- The state of the process when `shell_loop` has read `line` (the lines
`later` remain) and recorded it, `h` being the history after the record. -/
def World.after_read (w : World) (later : List Str) (h : History) : World :=
  { w with cout := w.cout ++ "> ".toList, cin := later, history := h }

/-- What holds of the way `shell_loop` ends when it starts with the lines `cin`
to read and the history entries `entries`: if the loop stops, by the
stop-signal (the function returns) or at end-of-input (the process exits with
`EXIT_SUCCESS`), then the history holds `entries` followed by the summary of
each line up to and including the first `exit` line, in order, and the lines
after that one are still unread; the loop stops by the stop-signal only when
there is an `exit` line and at end-of-input only when there is none. -/
def LoopResult (cin : List Str) (entries : List Str) : Outcome Unit → Prop
  | Outcome.returned _ w2 =>
    (∃ line ∈ cin, is_exit_line line = true) ∧
      history_entries w2.history = some (entries ++
        (lines_until_exit cin).map (fun line => history_command (split_input_line line))) ∧
      w2.cin = cin.drop (lines_until_exit cin).length
  | Outcome.exited code w2 =>
    code = EXIT_SUCCESS →
      (∀ line ∈ cin, is_exit_line line = false) ∧
      history_entries w2.history = some (entries ++
        (lines_until_exit cin).map (fun line => history_command (split_input_line line))) ∧
      w2.cin = cin.drop (lines_until_exit cin).length
  | _ => True

/-- Whether the loop stopped: by the stop-signal or at end-of-input. -/
def LoopStopped : Outcome Unit → Prop
  | Outcome.returned _ _ => True
  | Outcome.exited code _ => code = EXIT_SUCCESS
  | _ => False

/-! ## Tokenizer: proofs -/

theorem mem_delim_iff (c : Char) : c ∈ SHELL_TOK_DELIM ↔ is_delim c = true := by
  simp [is_delim]

theorem find_from_none (l : Str) (i : Nat) (h : ∀ c ∈ l, is_delim c = false) :
    find_from SHELL_TOK_DELIM l i = none := by
  induction l generalizing i with
  | nil => rfl
  | cons c cs ih =>
    have hc : c ∉ SHELL_TOK_DELIM := by
      rw [mem_delim_iff]; simp [h c (List.mem_cons_self c cs)]
    simp only [find_from, if_neg hc]
    exact ih (i + 1) (fun x hx => h x (List.mem_cons_of_mem c hx))

theorem find_from_first (pre post : Str) (d : Char) (i : Nat)
    (h : ∀ c ∈ pre, is_delim c = false) (hd : is_delim d = true) :
    find_from SHELL_TOK_DELIM (pre ++ d :: post) i = some (i + pre.length) := by
  induction pre generalizing i with
  | nil => simp [find_from, (mem_delim_iff d).2 hd]
  | cons c cs ih =>
    have hc : c ∉ SHELL_TOK_DELIM := by
      rw [mem_delim_iff]; simp [h c (List.mem_cons_self c cs)]
    have hrec := ih (i + 1) (fun x hx => h x (List.mem_cons_of_mem c hx))
    show find_from SHELL_TOK_DELIM (c :: (cs ++ d :: post)) i = _
    rw [find_from, if_neg hc, hrec, List.length_cons]
    congr 1
    omega

/-- Every line is delimiter-free or has a first delimiter. -/
theorem first_delim_cases (l : Str) :
    (∀ c ∈ l, is_delim c = false) ∨
    ∃ pre d post, l = pre ++ d :: post ∧ (∀ c ∈ pre, is_delim c = false) ∧
      is_delim d = true := by
  induction l with
  | nil => left; simp
  | cons c cs ih =>
    by_cases hc : is_delim c = true
    · right; exact ⟨[], c, cs, rfl, by simp, hc⟩
    · have hc0 : is_delim c = false := by simpa using hc
      rcases ih with h | ⟨pre, d, post, rfl, hpre, hd⟩
      · left
        intro x hx
        rcases List.mem_cons.1 hx with rfl | hx
        · exact hc0
        · exact h x hx
      · right
        refine ⟨c :: pre, d, post, rfl, ?_, hd⟩
        intro x hx
        rcases List.mem_cons.1 hx with rfl | hx
        · exact hc0
        · exact hpre x hx

theorem tokenize_reference_clean (l : Str) (h : ∀ c ∈ l, is_delim c = false) :
    tokenize_reference l = if l = [] then [] else [l] := by
  have h' : ∀ x ∈ l, ¬ is_delim x = true := fun x hx => by simp [h x hx]
  unfold tokenize_reference
  rw [List.splitOnP_eq_single is_delim l h']
  cases l <;> simp

theorem tokenize_reference_first (pre post : Str) (d : Char)
    (h : ∀ c ∈ pre, is_delim c = false) (hd : is_delim d = true) :
    tokenize_reference (pre ++ d :: post) =
      (if pre = [] then [] else [pre]) ++ tokenize_reference post := by
  have h' : ∀ x ∈ pre, ¬ is_delim x = true := fun x hx => by simp [h x hx]
  unfold tokenize_reference
  rw [List.splitOnP_first is_delim pre h' d hd post]
  cases pre <;> simp

theorem split_loop_eq (n : Nat) : ∀ (line : Str) (pos : Nat) (tokens : List Str),
    line.length - pos = n → pos ≤ line.length →
    split_loop line pos tokens = tokens ++ tokenize_reference (line.drop pos) := by
  induction n using Nat.strong_induction_on with
  | _ n ih =>
    intro line pos tokens hn hpos
    rcases first_delim_cases (line.drop pos) with h | ⟨pre, d, post, hl, hpre, hd⟩
    · have hf : find_first_of line SHELL_TOK_DELIM pos = none :=
        find_from_none _ _ h
      rw [split_loop]
      split
      · rename_i found hfound
        rw [hf] at hfound; cases hfound
      · rw [tokenize_reference_clean _ h, substr_from]
        by_cases hlt : pos < line.length
        · have : line.drop pos ≠ [] := by
            intro h0
            have := congrArg List.length h0
            simp at this; omega
          simp [hlt, this]
        · have : line.drop pos = [] := List.drop_eq_nil_of_le (by omega)
          simp [hlt, this]
    · have hf : find_first_of line SHELL_TOK_DELIM pos = some (pos + pre.length) := by
        unfold find_first_of
        rw [hl]
        exact find_from_first pre post d pos hpre hd
      have hlen : (line.drop pos).length = pre.length + post.length + 1 := by
        rw [hl]; simp; omega
      rw [List.length_drop] at hlen
      rw [split_loop]
      split
      · rename_i found hfound
        rw [hf] at hfound
        simp only [Option.some.injEq] at hfound
        subst hfound
        have hdrop : line.drop (pos + pre.length + 1) = post := by
          have h2 : line.drop (pos + pre.length + 1) =
              (line.drop pos).drop (pre.length + 1) := by
            rw [List.drop_drop, Nat.add_assoc]
          rw [h2, hl]
          simp
        rw [ih (line.length - (pos + pre.length + 1)) (by omega) line _ _ rfl (by omega)]
        rw [hdrop, hl, tokenize_reference_first pre post d hpre hd]
        have hsub : substr line pos (pos + pre.length - pos) = pre := by
          simp [substr, hl]
        rw [hsub]
        cases pre <;> simp
      · rename_i hnone
        rw [hf] at hnone; cases hnone

theorem split_input_line_eq (line : Str) :
    split_input_line line = tokenize_reference line := by
  unfold split_input_line
  rw [split_loop_eq (line.length - 0) line 0 [] rfl (Nat.zero_le _)]
  simp


/-- Induction along the delimiters of a line: a property that holds of the
delimiter-free lines, and of `pre ++ d :: post` when `d` is the first
delimiter and the property holds of `post`, holds of every line. -/
theorem delim_induction (P : Str → Prop)
    (clean : ∀ l, (∀ c ∈ l, is_delim c = false) → P l)
    (first : ∀ pre d post, (∀ c ∈ pre, is_delim c = false) → is_delim d = true →
      P post → P (pre ++ d :: post)) :
    ∀ l, P l := by
  have aux : ∀ n : Nat, ∀ l : Str, l.length = n → P l := by
    intro n
    induction n using Nat.strong_induction_on with
    | _ n ih =>
      intro l hn
      rcases first_delim_cases l with h | ⟨pre, d, post, rfl, hpre, hd⟩
      · exact clean l h
      · refine first pre d post hpre hd (ih post.length ?_ post rfl)
        rw [← hn]; simp; omega
  exact fun l => aux l.length l rfl

theorem tokenize_reference_ne_nil (l t : Str) (h : t ∈ tokenize_reference l) : t ≠ [] := by
  unfold tokenize_reference at h
  have := (List.mem_filter.1 h).2
  intro ht
  subst ht
  simp at this

theorem tokenize_reference_no_delim :
    ∀ (l t : Str), t ∈ tokenize_reference l → ∀ c ∈ t, is_delim c = false := by
  intro l
  induction l using delim_induction with
  | clean l h =>
    intro t ht
    rw [tokenize_reference_clean l h] at ht
    split at ht
    · simp at ht
    · simp only [List.mem_singleton] at ht
      subst ht
      exact h
  | first pre d post hpre hd ih =>
    intro t ht
    rw [tokenize_reference_first pre post d hpre hd] at ht
    rcases List.mem_append.1 ht with ht | ht
    · split at ht
      · simp at ht
      · simp only [List.mem_singleton] at ht
        subst ht
        exact hpre
    · exact ih t ht

theorem tokenize_reference_all_delims (l : Str) (h : ∀ c ∈ l, is_delim c = true) :
    tokenize_reference l = [] := by
  induction l with
  | nil => rfl
  | cons c cs ih =>
    have hc : is_delim c = true := h c (List.mem_cons_self c cs)
    have hcs := ih (fun x hx => h x (List.mem_cons_of_mem c hx))
    unfold tokenize_reference at hcs ⊢
    simp [hc, hcs]

theorem filter_clean (l : Str) (h : ∀ c ∈ l, is_delim c = false) :
    l.filter (fun c => !is_delim c) = l := by
  rw [List.filter_eq_self]
  intro c hc
  simp [h c hc]

theorem tokenize_reference_flatten (l : Str) :
    (tokenize_reference l).flatten = l.filter (fun c => !is_delim c) := by
  induction l using delim_induction with
  | clean l h =>
    rw [tokenize_reference_clean l h, filter_clean l h]
    split
    · next h0 => simp [h0]
    · simp
  | first pre d post hpre hd ih =>
    rw [tokenize_reference_first pre post d hpre hd, List.flatten_append, ih,
      List.filter_append, filter_clean pre hpre]
    have : List.filter (fun c => !is_delim c) (d :: post) =
        List.filter (fun c => !is_delim c) post := by
      simp [List.filter_cons, hd]
    rw [this]
    split
    · next h0 => simp [h0]
    · simp

/-! ## History log: proofs -/

theorem getElem_opt_last (h : List Node) (m n : Node) :
    (h ++ [m, n])[h.length + 1]? = some n := by
  rw [List.getElem?_append_right (by omega)]
  simp

theorem set_last (h : List Node) (m n x : Node) :
    (h ++ [m, n]).set (h.length + 1) x = h ++ [m, x] := by
  rw [List.set_append_right _ _ (by omega)]
  simp

theorem get_command_last (h : List Node) (m n : Node) (a : Nat)
    (ha : a = h.length + 1) :
    get_command (h ++ [m, n]) (some a) = some n.command := by
  subst ha; simp only [get_command, getElem_opt_last, Option.map_some']

theorem set_command_last (h : List Node) (m n : Node) (a : Nat) (v : Str)
    (ha : a = h.length + 1) :
    set_command (h ++ [m, n]) (some a) v = some (h ++ [m, Node.mk v n.next]) := by
  subst ha; simp only [set_command, getElem_opt_last, Option.map_some', set_last]

theorem set_next_last (h : List Node) (m n : Node) (a : Nat) (q : Option Nat)
    (ha : a = h.length + 1) :
    set_next (h ++ [m, n]) (some a) q = some (h ++ [m, Node.mk n.command q]) := by
  subst ha; simp only [set_next, getElem_opt_last, Option.map_some', set_last]

theorem set_next_inner (h t : List Node) (n : Node) (c : Nat) (q : Option Nat)
    (hc : h[c]? = some n) :
    set_next (h ++ t) (some c) q = some (h.set c (Node.mk n.command q) ++ t) := by
  have hlt : c < h.length := (List.getElem?_eq_some.1 hc).1
  simp [set_next, List.getElem?_append_left hlt, hc, List.set_append_left _ _ hlt]

theorem add_to_history_first (args : List Str) (s : History) (h : s.head = none) :
    add_to_history args s = some (History.mk
      (s.heap ++ [Node.mk [] none, Node.mk (history_command args) none])
      (some (s.heap.length + 1)) (some (s.heap.length + 1))) := by
  rcases args with _ | ⟨a, _ | ⟨b, rest⟩⟩ <;>
    simp [add_to_history, h, make_shared, set_command_last, set_next_last,
      get_command_last, history_command, append_strings]

theorem add_to_history_later (args : List Str) (s : History) (hd c : Nat) (n : Node)
    (h : s.head = some hd) (hcur : s.cur = some c) (hn : s.heap[c]? = some n) :
    add_to_history args s = some (History.mk
      (s.heap.set c (Node.mk n.command (some (s.heap.length + 1))) ++
        [Node.mk [] none, Node.mk (history_command args) none])
      (some hd) (some (s.heap.length + 1))) := by
  rcases args with _ | ⟨a, _ | ⟨b, rest⟩⟩ <;>
    simp [add_to_history, h, hcur, make_shared, set_command_last, set_next_last,
      get_command_last, history_command, append_strings, set_next_inner _ _ n c _ hn]

theorem isSeg_append (heap : List Node) (l1 l2 : List (Nat × Str)) (p q r : Option Nat)
    (h1 : IsSeg heap p l1 q) (h2 : IsSeg heap q l2 r) : IsSeg heap p (l1 ++ l2) r := by
  induction l1 generalizing p with
  | nil => simp only [IsSeg] at h1; subst h1; simpa using h2
  | cons x rest ih =>
    obtain ⟨hp, nx, hx, hrest⟩ := h1
    exact ⟨hp, nx, hx, ih nx hrest⟩

theorem isSeg_snoc (heap : List Node) (l : List (Nat × Str)) (x : Nat × Str)
    (p r : Option Nat) (h : IsSeg heap p (l ++ [x]) r) :
    IsSeg heap p l (some x.1) ∧ heap[x.1]? = some (Node.mk x.2 r) := by
  induction l generalizing p with
  | nil =>
    obtain ⟨hp, nx, hx, hrest⟩ := h
    simp only [IsSeg] at hrest
    subst hrest
    exact ⟨hp, hx⟩
  | cons y rest ih =>
    obtain ⟨hp, nx, hy, hrest⟩ := h
    obtain ⟨h1, h2⟩ := ih nx hrest
    exact ⟨⟨hp, nx, hy, h1⟩, h2⟩

theorem isSeg_frame (heap heap' : List Node) (l : List (Nat × Str)) (p q : Option Nat)
    (h : IsSeg heap p l q) (hsame : ∀ x ∈ l, heap'[x.1]? = heap[x.1]?) :
    IsSeg heap' p l q := by
  induction l generalizing p with
  | nil => exact h
  | cons x rest ih =>
    obtain ⟨hp, nx, hx, hrest⟩ := h
    refine ⟨hp, nx, ?_, ih nx hrest (fun y hy => hsame y (List.mem_cons_of_mem x hy))⟩
    rw [hsame x (List.mem_cons_self x rest)]
    exact hx

theorem list_from_of_isSeg (heap : List Node) (l : List (Nat × Str)) (p : Option Nat)
    (fuel : Nat) (h : IsSeg heap p l none) (hf : l.length < fuel) :
    list_from fuel heap p = some l := by
  induction l generalizing p fuel with
  | nil =>
    simp only [IsSeg] at h
    subst h
    cases fuel with
    | zero => simp at hf
    | succ f => rfl
  | cons x rest ih =>
    obtain ⟨hp, nx, hx, hrest⟩ := h
    subst hp
    cases fuel with
    | zero => simp at hf
    | succ f =>
      have hf' : rest.length < f := by simpa using hf
      simp only [list_from, hx, ih nx f hrest hf', Option.map_some']

theorem display_loop_of_isSeg (heap : List Node) (l : List (Nat × Str)) (p : Option Nat)
    (fuel : Nat) (i : Int) (h : IsSeg heap p l none) (hf : l.length < fuel) :
    display_history_loop fuel heap p i = some (listing_int i (l.map Prod.snd)) := by
  induction l generalizing p fuel i with
  | nil =>
    simp only [IsSeg] at h
    subst h
    cases fuel with
    | zero => simp at hf
    | succ f => rfl
  | cons x rest ih =>
    obtain ⟨hp, nx, hx, hrest⟩ := h
    subst hp
    cases fuel with
    | zero => simp at hf
    | succ f =>
      have hf' : rest.length < f := by simpa using hf
      simp only [display_history_loop, hx, ih nx f _ hrest hf', Option.map_some',
        List.map_cons, listing_int]

theorem historyInv_initial : HistoryInv History.initial [] := by
  simp [HistoryInv, History.initial, IsSeg]

theorem historyInv_list (s : History) (l : List (Nat × Str)) (h : HistoryInv s l) :
    history_list s = some l :=
  list_from_of_isSeg s.heap l s.head _ h.1 (Nat.lt_succ_of_le h.2.2.2.2)

theorem historyInv_add (args : List Str) (s : History) (l : List (Nat × Str))
    (h : HistoryInv s l) :
    ∃ s', add_to_history args s = some s' ∧
      HistoryInv s' (l ++ [(s.heap.length + 1, history_command args)]) ∧
      s'.cur = some (s.heap.length + 1) := by
  obtain ⟨hseg, hnodup, hbound, hcur, hlen⟩ := h
  rcases List.eq_nil_or_concat l with rfl | ⟨l0, x, hl0⟩
  on_goal 2 => rw [List.concat_eq_append] at hl0; subst hl0
  · have hhead : s.head = none := by simpa [IsSeg] using hseg
    refine ⟨_, add_to_history_first args s hhead, ⟨?_, ?_, ?_, ?_, ?_⟩, rfl⟩
    · exact ⟨rfl, none, getElem_opt_last _ _ _, rfl⟩
    · simp
    · simp
    · simp
    · simp
  · obtain ⟨hseg0, hx⟩ := isSeg_snoc s.heap l0 x s.head none hseg
    have hxlt : x.1 < s.heap.length := hbound x (by simp)
    have hcur' : s.cur = some x.1 := by simpa using hcur
    obtain ⟨hd, hhd⟩ : ∃ hd, s.head = some hd := by
      cases l0 with
      | nil => exact ⟨x.1, by simpa [IsSeg] using hseg0⟩
      | cons y rest => exact ⟨y.1, hseg0.1⟩
    refine ⟨_, add_to_history_later args s hd x.1 _ hhd hcur' hx, ⟨?_, ?_, ?_, ?_, ?_⟩, rfl⟩
    · -- the list of the new state
      have hnd : ∀ y ∈ l0, y.1 ≠ x.1 := by
        intro y hy hyx
        have hn := hnodup
        rw [List.map_append, List.nodup_append] at hn
        exact hn.2.2 (List.mem_map_of_mem Prod.fst hy) (by simp [hyx])
      have hxl : x.1 < (s.heap.set x.1 (Node.mk x.2 (some (s.heap.length + 1)))).length := by
        simpa using hxlt
      have h0 : IsSeg (s.heap.set x.1 (Node.mk x.2 (some (s.heap.length + 1))) ++
          [Node.mk [] none, Node.mk (history_command args) none]) s.head l0 (some x.1) := by
        refine isSeg_frame s.heap _ l0 s.head (some x.1) hseg0 ?_
        intro y hy
        have hylt : y.1 < s.heap.length := hbound y (by simp [hy])
        have hyl : y.1 < (s.heap.set x.1 (Node.mk x.2 (some (s.heap.length + 1)))).length := by
          simpa using hylt
        rw [List.getElem?_append_left hyl, List.getElem?_set_ne (Ne.symm (hnd y hy))]
      have h1 : IsSeg (s.heap.set x.1 (Node.mk x.2 (some (s.heap.length + 1))) ++
          [Node.mk [] none, Node.mk (history_command args) none]) (some x.1)
          [x, (s.heap.length + 1, history_command args)] none := by
        refine ⟨rfl, some (s.heap.length + 1), ?_, rfl, none, ?_, rfl⟩
        · rw [List.getElem?_append_left hxl]
          simp [List.getElem?_set, hxlt]
        · have := getElem_opt_last (s.heap.set x.1 (Node.mk x.2 (some (s.heap.length + 1))))
            (Node.mk [] none) (Node.mk (history_command args) none)
          simpa using this
      have := isSeg_append _ l0 [x, (s.heap.length + 1, history_command args)] _ _ _ h0 h1
      simpa [hhd] using this
    · rw [List.map_append, List.nodup_append]
      refine ⟨hnodup, by simp, ?_⟩
      intro a ha hb
      simp only [List.map_cons, List.map_nil, List.mem_singleton] at hb
      subst hb
      obtain ⟨y, hy, hya⟩ := List.mem_map.1 ha
      have := hbound y hy
      omega
    · intro y hy
      rcases List.mem_append.1 hy with hy | hy
      · have := hbound y hy
        simp; omega
      · simp only [List.mem_singleton] at hy
        subst hy
        simp
    · simp
    · simp at hlen ⊢
      omega

theorem record_all_inv (calls : List (List Str)) (s : History) (l : List (Nat × Str))
    (h : HistoryInv s l) :
    ∃ s' l', record_all calls s = some s' ∧ HistoryInv s' l' ∧
      l'.map Prod.snd = l.map Prod.snd ++ calls.map history_command := by
  induction calls generalizing s l with
  | nil => exact ⟨s, l, rfl, h, by simp⟩
  | cons args rest ih =>
    obtain ⟨s1, hs1, hinv1, -⟩ := historyInv_add args s l h
    obtain ⟨s2, l2, hs2, hinv2, hl2⟩ := ih s1 _ hinv1
    refine ⟨s2, l2, ?_, hinv2, ?_⟩
    · simp [record_all, hs1, hs2]
    · simp [hl2]

/-- After any sequence of calls from the initial state, one more call
succeeds and adds one node, which `cur` points to, at the end of the list. -/
theorem record_then_add (calls : List (List Str)) (args : List Str) :
    ∃ s s' l a, record_all calls History.initial = some s ∧
      add_to_history args s = some s' ∧ history_list s = some l ∧
      history_list s' = some (l ++ [(a, history_command args)]) ∧
      s'.cur = some a ∧ l.map Prod.snd = calls.map history_command := by
  obtain ⟨s, l, hs, hinv, hl⟩ := record_all_inv calls _ _ historyInv_initial
  obtain ⟨s', hs', hinv', hcur⟩ := historyInv_add args s l hinv
  exact ⟨s, s', l, _, hs, hs', historyInv_list s l hinv, historyInv_list s' _ hinv', hcur,
    by simpa using hl⟩

/-! ## The `int` counter of `display_history` -/

theorem int_wrap_idem (x : Int) : int_wrap (int_wrap x) = int_wrap x := by
  unfold int_wrap; omega

theorem int_wrap_add (x : Int) (n : Nat) :
    int_wrap (int_wrap (x + 1) + n) = int_wrap (x + (n + 1 : Nat)) := by
  unfold int_wrap; push_cast; omega

theorem int_wrap_small (k : Nat) (h : k < 2 ^ 31) : int_wrap (k : Int) = (k : Int) := by
  unfold int_wrap; norm_num at h; omega

theorem int_to_decimal_natCast (k : Nat) : int_to_decimal (k : Int) = Nat.toDigits 10 k := by
  unfold int_to_decimal
  have : ¬ ((k : Int) < 0) := by omega
  simp [this]

theorem listing_int_eq_listing (es : List Str) :
    ∀ k : Nat, k + es.length ≤ 2 ^ 31 → listing_int (k : Int) es = listing k es := by
  induction es with
  | nil => intro k _; rfl
  | cons e rest ih =>
    intro k hk
    simp only [listing_int, listing, listing_line, int_to_decimal_natCast]
    cases rest with
    | nil => rfl
    | cons e' rest' =>
      have hk1 : k + 1 < 2 ^ 31 := by simp at hk; omega
      have hw : int_wrap ((k : Int) + 1) = ((k + 1 : Nat) : Int) := by
        rw [← int_wrap_small (k + 1) hk1]; rfl
      rw [hw, ih (k + 1) (by simp at hk ⊢; omega)]

theorem listing_int_append (es fs : List Str) :
    ∀ i : Int, int_wrap i = i →
      listing_int i (es ++ fs) =
        listing_int i es ++ listing_int (int_wrap (i + es.length)) fs := by
  induction es with
  | nil => intro i hi; simp [listing_int, hi]
  | cons e rest ih =>
    intro i _
    rw [List.cons_append]
    simp only [listing_int, List.length_cons]
    rw [ih (int_wrap (i + 1)) (int_wrap_idem _), int_wrap_add]
    simp

theorem listing_append (es fs : List Str) :
    ∀ k : Nat, listing k (es ++ fs) = listing k es ++ listing (k + es.length) fs := by
  induction es with
  | nil => intro k; simp [listing]
  | cons e rest ih =>
    intro k
    rw [List.cons_append]
    simp only [listing, List.length_cons]
    rw [ih (k + 1)]
    simp [Nat.add_assoc, Nat.add_comm 1]

/-- With 2147483648 entries the counter has wrapped at the last line. -/
theorem listing_int_overflow (es : List Str) (h : es.length = 2147483647) :
    listing_int 1 (es ++ [[]]) ≠ listing 1 (es ++ [[]]) := by
  have h1 : listing_int ((1 : Nat) : Int) es = listing 1 es :=
    listing_int_eq_listing es 1 (by rw [h]; norm_num)
  have h2 := listing_int_append es [[]] 1 (by decide)
  rw [h2, listing_append, h]
  have h1' : listing_int 1 es = listing 1 es := h1
  rw [h1']
  intro hcontra
  have := List.append_cancel_left hcontra
  revert this
  decide

/-- After `n + 1 = 2^31` calls with the empty argument vector,
`display_history` does not write the listing numbered from 1. -/
theorem display_overflow (n : Nat) (hn : n = 2147483647) (s : History)
    (hs : record_all (List.replicate (n + 1) []) History.initial = some s) :
    display_history (n + 2) [] s ≠
      some (listing 1 ((List.replicate (n + 1) []).map history_command), 1) := by
  obtain ⟨s0, l, hs0, hinv, hl⟩ :=
    record_all_inv (List.replicate (n + 1) []) _ _ historyInv_initial
  rw [hs] at hs0
  cases hs0
  have hmap : (List.replicate (n + 1) ([] : List Str)).map history_command =
      List.replicate n [] ++ [[]] := by
    rw [List.map_replicate]
    exact List.replicate_succ' n []
  have hl' : l.map Prod.snd = List.replicate n ([] : Str) ++ [[]] := by
    rw [← hmap]; exact hl
  have hlen : l.length = n + 1 := by
    have := congrArg List.length hl'
    rw [List.length_map, List.length_append, List.length_replicate] at this
    exact this
  have h1 := display_loop_of_isSeg s.heap l s.head (n + 2) 1 hinv.1 (by omega)
  rw [display_history, h1, hmap, hl']
  intro h2
  simp only [Option.map_some', Option.some.injEq, Prod.mk.injEq, and_true] at h2
  exact listing_int_overflow (List.replicate n []) (by rw [List.length_replicate, hn]) h2

/-! ## The claims about the tokenizer -/

/-- C1: for every line, `split_input_line` returns the reference tokenization
(split at every delimiter, empty pieces discarded, order kept); the line
`a  b<TAB>c` gives `a`, `b`, `c` and the line `single` gives `single`. -/
theorem C1_split_input_line_is_reference :
    (∀ line : Str, split_input_line line = tokenize_reference line) ∧
    split_input_line ("a  b\tc".toList) = ["a".toList, "b".toList, "c".toList] ∧
    split_input_line ("single".toList) = ["single".toList] := by
  refine ⟨split_input_line_eq, ?_, ?_⟩
  · rw [split_input_line_eq]; decide
  · rw [split_input_line_eq]; decide

/-- C2: no token returned by `split_input_line` is the empty string. -/
theorem C2_no_empty_token (line t : Str) (h : t ∈ split_input_line line) : t ≠ [] := by
  rw [split_input_line_eq] at h
  exact tokenize_reference_ne_nil line t h

/-- C2 at the line `<SP><SP>a<SP><SP><SP>b<SP><TAB>`, which starts and ends with
delimiters and has runs of them. -/
theorem C2_no_empty_token_witness :
    "a".toList ∈ split_input_line ("  a   b \t".toList) ∧ "a".toList ≠ [] := by
  have hm : "a".toList ∈ split_input_line ("  a   b \t".toList) := by
    rw [split_input_line_eq]; decide
  exact ⟨hm, C2_no_empty_token _ _ hm⟩

/-- C3: no token returned by `split_input_line` contains a delimiter
character, whatever other characters (quotes, backslashes) the line has. -/
theorem C3_delimiter_always_splits (line t : Str) (c : Char)
    (ht : t ∈ split_input_line line) (hc : c ∈ t) : c ∉ SHELL_TOK_DELIM := by
  rw [split_input_line_eq] at ht
  rw [mem_delim_iff]
  simp [tokenize_reference_no_delim line t ht c hc]

/-- C3 at the line `echo "a b" c\ d`: the space inside the quotes splits, the
token `"a` holds the quote and no delimiter. -/
theorem C3_delimiter_always_splits_witness :
    "\"a".toList ∈ split_input_line ("echo \"a b\" c\\ d".toList) ∧
      '"' ∈ "\"a".toList ∧ '"' ∉ SHELL_TOK_DELIM := by
  have hm : "\"a".toList ∈ split_input_line ("echo \"a b\" c\\ d".toList) := by
    rw [split_input_line_eq]; decide
  have hc : '"' ∈ "\"a".toList := by decide
  exact ⟨hm, hc, C3_delimiter_always_splits _ _ _ hm hc⟩

/-- C4: a line that is empty or made of delimiter characters only gives the
empty argument vector. -/
theorem C4_only_delimiters_give_no_token (line : Str)
    (h : ∀ c ∈ line, c ∈ SHELL_TOK_DELIM) : split_input_line line = [] := by
  rw [split_input_line_eq]
  exact tokenize_reference_all_delims line (fun c hc => (mem_delim_iff c).1 (h c hc))

/-- C4 at the empty line and at the line of three spaces, a tab and a space. -/
theorem C4_only_delimiters_give_no_token_witness :
    split_input_line ("".toList) = [] ∧
    (∀ c ∈ "   \t ".toList, c ∈ SHELL_TOK_DELIM) ∧
    split_input_line ("   \t ".toList) = [] :=
  ⟨C4_only_delimiters_give_no_token _ (by decide), by decide,
    C4_only_delimiters_give_no_token _ (by decide)⟩

/-- C5: the tokens of `split_input_line`, concatenated in order, are the line
with its delimiter characters removed, for a line of any length and any
number of tokens. -/
theorem C5_tokens_keep_every_character (line : Str) :
    (split_input_line line).flatten =
      line.filter (fun c => decide (c ∉ SHELL_TOK_DELIM)) := by
  rw [split_input_line_eq, tokenize_reference_flatten]
  congr 1
  funext c
  simp [is_delim]

/-! ## The claims about the history log -/

/-- C6: recording an argument vector with at least two tokens, in any
reachable history, appends the entry `args[0]`, one space, `args[1]`; the
tokens after the second are dropped, and `ls`, `-la`, `extra` gives `ls -la`. -/
theorem C6_two_tokens_are_stored (calls : List (List Str)) (arg0 arg1 : Str)
    (more : List Str) :
    (∃ s s' entries, record_all calls History.initial = some s ∧
      add_to_history (arg0 :: arg1 :: more) s = some s' ∧
      history_entries s = some entries ∧
      history_entries s' = some (entries ++ [arg0 ++ [' '] ++ arg1])) ∧
    (add_to_history ["ls".toList, "-la".toList, "extra".toList] History.initial).bind
      history_entries = some ["ls -la".toList] := by
  refine ⟨?_, by decide⟩
  obtain ⟨s, s', l, a, hs, hs', hl, hl', -, -⟩ :=
    record_then_add calls (arg0 :: arg1 :: more)
  refine ⟨s, s', l.map Prod.snd, hs, hs', ?_, ?_⟩
  · simp [history_entries, hl]
  · simp [history_entries, hl', history_command, append_strings]

/-- C7, as stated, fails: recording the single token `help` in the empty
history stores `help` followed by a space, not `help`. -/
theorem C7_counterexample :
    (add_to_history ["help".toList] History.initial).bind history_entries =
        some ["help ".toList] ∧
    (add_to_history ["help".toList] History.initial).bind history_entries ≠
        some ["help".toList] := by
  decide

/-- C7, amended: recording an argument vector with exactly one token `t`, as
the first entry or as a later one, appends the entry `t` followed by one
space. -/
theorem C7_single_token_keeps_the_space (calls : List (List Str)) (t : Str) :
    ∃ s s' entries, record_all calls History.initial = some s ∧
      add_to_history [t] s = some s' ∧
      history_entries s = some entries ∧
      history_entries s' = some (entries ++ [t ++ [' ']]) := by
  obtain ⟨s, s', l, a, hs, hs', hl, hl', -, -⟩ := record_then_add calls [t]
  refine ⟨s, s', l.map Prod.snd, hs, hs', ?_, ?_⟩
  · simp [history_entries, hl]
  · simp [history_entries, hl', history_command, append_strings]

/-- C8: recording the empty argument vector appends an entry, the empty
string, in the empty history (first conjunct) and after any sequence of
calls (second conjunct, where `calls` may also be empty). -/
theorem C8_empty_vector_stores_empty_entry (calls : List (List Str)) :
    (add_to_history [] History.initial).bind history_entries = some [[]] ∧
    ∃ s s' entries, record_all calls History.initial = some s ∧
      add_to_history [] s = some s' ∧
      history_entries s = some entries ∧
      history_entries s' = some (entries ++ [[]]) := by
  refine ⟨by decide, ?_⟩
  obtain ⟨s, s', l, a, hs, hs', hl, hl', -, -⟩ := record_then_add calls []
  refine ⟨s, s', l.map Prod.snd, hs, hs', ?_, ?_⟩
  · simp [history_entries, hl]
  · simp [history_entries, hl', history_command]

/-- C9, as stated, fails for N = 2147483647 + 1 = 2^31: after that many calls
(here each with the empty argument vector) the `int` counter of
`display_history` has wrapped, so the text written is not the listing
numbered 1 to N. -/
theorem C9_counterexample :
    ¬ ∃ s, record_all (List.replicate (2147483647 + 1) []) History.initial = some s ∧
      ∀ fuel, 2147483647 + 1 < fuel →
        display_history fuel [] s =
          some (listing 1 ((List.replicate (2147483647 + 1) []).map history_command), 1) := by
  rintro ⟨s, hs, hd⟩
  exact display_overflow 2147483647 rfl s hs (hd (2147483647 + 2) (by omega))

/-- The text `display_history` writes after the calls with `ls -la extra`,
`help` and the empty vector. -/
theorem display_history_example :
    (record_all [["ls".toList, "-la".toList, "extra".toList], ["help".toList], []]
        History.initial).bind (display_history 4 []) =
      some (" 1 ls -la\n 2 help \n 3 \n".toList, 1) := by
  decide

/-- C9, amended: for every sequence of fewer than 2^31 `add_to_history` calls
from the empty history, the calls succeed, the i-th entry of the history is
the entry stored by the i-th call, and `display_history` (given enough fuel
to walk the list) writes one line per entry, in insertion order, the i-th
being a space, the decimal number i, a space, the i-th entry and a newline,
and returns 1, the continue-signal. -/
theorem C9_listing_of_history (calls : List (List Str)) (args : List Str)
    (hN : calls.length < 2 ^ 31) :
    ∃ s, record_all calls History.initial = some s ∧
      history_entries s = some (calls.map history_command) ∧
      ∀ fuel, calls.length < fuel →
        display_history fuel args s = some (listing 1 (calls.map history_command), 1) := by
  obtain ⟨s, l, hs, hinv, hl⟩ := record_all_inv calls _ _ historyInv_initial
  have hl' : l.map Prod.snd = calls.map history_command := by simpa using hl
  have hlen : l.length = calls.length := by
    have := congrArg List.length hl'
    simpa using this
  refine ⟨s, hs, ?_, ?_⟩
  · simp [history_entries, historyInv_list s l hinv, hl']
  · intro fuel hfuel
    have h1 := display_loop_of_isSeg s.heap l s.head fuel 1 hinv.1 (by rw [hlen]; exact hfuel)
    have h2 : listing_int ((1 : Nat) : Int) (calls.map history_command) =
        listing 1 (calls.map history_command) :=
      listing_int_eq_listing _ 1 (by simp; omega)
    rw [display_history, h1, hl']
    simp only [Option.map_some']
    rw [show (1 : Int) = ((1 : Nat) : Int) from rfl, h2]

/-- C9 (amended) at the three calls with `ls -la extra`, `help` and the empty
vector. -/
theorem C9_listing_of_history_witness :
    [["ls".toList, "-la".toList, "extra".toList], ["help".toList], []].length < 2 ^ 31 ∧
    ∃ s, record_all [["ls".toList, "-la".toList, "extra".toList], ["help".toList], []]
        History.initial = some s ∧
      history_entries s = some
        ([["ls".toList, "-la".toList, "extra".toList], ["help".toList], []].map
          history_command) ∧
      ∀ fuel, [["ls".toList, "-la".toList, "extra".toList], ["help".toList], []].length < fuel →
        display_history fuel [] s = some (listing 1
          ([["ls".toList, "-la".toList, "extra".toList], ["help".toList], []].map
            history_command), 1) :=
  ⟨by decide, C9_listing_of_history _ [] (by decide)⟩

/-- C10: in every state reached by `add_to_history` calls from the empty
history, one more call succeeds; the nodes and the entries reachable from
`head` afterwards are those before the call, unchanged and in the same order,
followed by exactly one new node with its entry; and `cur` is that last
node. -/
theorem C10_history_is_append_only (calls : List (List Str)) (args : List Str) :
    ∃ s s' nodes entries a e,
      record_all calls History.initial = some s ∧
      add_to_history args s = some s' ∧
      history_nodes s = some nodes ∧ history_entries s = some entries ∧
      history_nodes s' = some (nodes ++ [a]) ∧
      history_entries s' = some (entries ++ [e]) ∧
      s'.cur = some a := by
  obtain ⟨s, s', l, a, hs, hs', hl, hl', hcur, -⟩ := record_then_add calls args
  refine ⟨s, s', l.map Prod.fst, l.map Prod.snd, a, history_command args, hs, hs',
    ?_, ?_, ?_, ?_, hcur⟩
  · simp [history_nodes, hl]
  · simp [history_entries, hl]
  · simp [history_nodes, hl']
  · simp [history_entries, hl']

/-! ## Dispatcher and launcher: lemmas -/

/-- The dispatch of a non-empty vector, with the `for` loop unrolled. -/
theorem execute_shell_cons (env : Env) (arg0 : Str) (more : List Str) (w : World) :
    execute_shell env (arg0 :: more) w =
      if arg0 = "cd".toList then change_directory env (arg0 :: more) w
      else if arg0 = "help".toList then display_help env (arg0 :: more) w
      else if arg0 = "exit".toList then exit_shell env (arg0 :: more) w
      else if arg0 = "history".toList then display_history_builtin env (arg0 :: more) w
      else launch_shell env (arg0 :: more) w := by
  simp only [execute_shell, List.isEmpty_cons, Bool.false_eq_true, if_false, get_num_builtins,
    built_in_commands, built_in_functions, List.length_cons, List.length_nil,
    execute_shell_loop, List.getElem?_cons_zero, List.getElem?_cons_succ]

/-- A status that ends the wait loop: exited or signaled. -/
theorem wait_loop_ends (pid : Int) (pre post : List WaitStatus) (t : WaitStatus) (w : World)
    (hpre : ∀ st ∈ pre, WIFEXITED st = false ∧ WIFSIGNALED st = false)
    (ht : WIFEXITED t = true ∨ WIFSIGNALED t = true) :
    wait_loop pid (pre ++ t :: post) w =
      Outcome.returned 1 { w with waits := w.waits ++ List.replicate (pre.length + 1) pid } := by
  induction pre generalizing w with
  | nil =>
    have : (!WIFEXITED t && !WIFSIGNALED t) = false := by
      rcases ht with h | h <;> simp [h]
    simp [wait_loop, this]
  | cons st rest ih =>
    have hst := hpre st (List.mem_cons_self st rest)
    have : (!WIFEXITED st && !WIFSIGNALED st) = true := by simp [hst.1, hst.2]
    rw [List.cons_append, wait_loop]
    simp only [this, if_true]
    rw [ih _ (fun x hx => hpre x (List.mem_cons_of_mem st hx))]
    simp [List.replicate_succ]

theorem wait_loop_blocks (pid : Int) (l : List WaitStatus) (w : World)
    (hl : ∀ st ∈ l, WIFEXITED st = false ∧ WIFSIGNALED st = false) :
    wait_loop pid l w =
      Outcome.blocked { w with waits := w.waits ++ List.replicate (l.length + 1) pid } := by
  induction l generalizing w with
  | nil => simp [wait_loop]
  | cons st rest ih =>
    have hst := hl st (List.mem_cons_self st rest)
    have : (!WIFEXITED st && !WIFSIGNALED st) = true := by simp [hst.1, hst.2]
    rw [wait_loop]
    simp only [this, if_true]
    rw [ih _ (fun x hx => hl x (List.mem_cons_of_mem st hx))]
    simp [List.replicate_succ]

/-- A list of statuses with an exited or signaled one has a first such. -/
theorem first_end_status (l : List WaitStatus)
    (h : ∃ st ∈ l, WIFEXITED st = true ∨ WIFSIGNALED st = true) :
    ∃ pre t post, l = pre ++ t :: post ∧
      (∀ st ∈ pre, WIFEXITED st = false ∧ WIFSIGNALED st = false) ∧
      (WIFEXITED t = true ∨ WIFSIGNALED t = true) := by
  induction l with
  | nil => simp at h
  | cons st rest ih =>
    by_cases hst : WIFEXITED st = true ∨ WIFSIGNALED st = true
    · exact ⟨[], st, rest, rfl, by simp, hst⟩
    · have hst' : WIFEXITED st = false ∧ WIFSIGNALED st = false := by
        simpa [not_or] using hst
      obtain ⟨x, hx, hxt⟩ := h
      rcases List.mem_cons.1 hx with rfl | hx
      · exact absurd hxt hst
      · obtain ⟨pre, t, post, hl, hpre, ht⟩ := ih ⟨x, hx, hxt⟩
        refine ⟨st :: pre, t, post, by simp [hl], ?_, ht⟩
        intro y hy
        rcases List.mem_cons.1 hy with rfl | hy
        · exact hst'
        · exact hpre y hy

theorem wait_loop_ok (args : List Str) (w : World) (hargs : args.head? ≠ some "exit".toList)
    (pid : Int) (sts : List WaitStatus) :
    ∀ w1 : World, w1.history = w.history → w1.cin = w.cin → w1.cin_error = w.cin_error →
      DispatchOk args w (wait_loop pid sts w1) := by
  induction sts with
  | nil => intro w1 _ _ _; simp [wait_loop, DispatchOk]
  | cons st rest ih =>
    intro w1 h1 h2 h3
    rw [wait_loop]
    split_ifs
    · exact ih _ h1 h2 h3
    · exact ⟨h1, h2, h3, Or.inr ⟨rfl, hargs⟩⟩

theorem launch_shell_ok (env : Env) (args : List Str) (w : World)
    (hargs : args.head? ≠ some "exit".toList) :
    DispatchOk args w (launch_shell env args w) := by
  unfold launch_shell
  simp only
  split_ifs
  · rfl
  · trivial
  · exact ⟨rfl, rfl, rfl, Or.inr ⟨rfl, hargs⟩⟩
  · exact wait_loop_ok args w hargs _ _ _ rfl rfl rfl

theorem display_history_builtin_eq (env : Env) (args : List Str) (w : World)
    (l : List (Nat × Str)) (hinv : HistoryInv w.history l) :
    display_history_builtin env args w =
      Outcome.returned 1 (w.write_cout (listing_int 1 (l.map Prod.snd))) := by
  have h := display_loop_of_isSeg w.history.heap l w.history.head (w.history.heap.length + 1) 1
    hinv.1 (Nat.lt_succ_of_le hinv.2.2.2.2)
  simp [display_history_builtin, display_history, h]

theorem display_history_builtin_ok (env : Env) (args : List Str) (w : World)
    (hargs : args.head? ≠ some "exit".toList) :
    DispatchOk args w (display_history_builtin env args w) := by
  unfold display_history_builtin display_history
  cases display_history_loop (w.history.heap.length + 1) w.history.heap w.history.head 1 with
  | none => trivial
  | some out => exact ⟨rfl, rfl, rfl, Or.inr ⟨rfl, hargs⟩⟩

theorem change_directory_ok (env : Env) (args : List Str) (w : World)
    (hargs : args.head? ≠ some "exit".toList) :
    DispatchOk args w (change_directory env args w) := by
  unfold change_directory
  split_ifs
  · exact ⟨rfl, rfl, rfl, Or.inr ⟨rfl, hargs⟩⟩
  · cases args[1]? with
    | none => trivial
    | some path =>
      simp only
      cases env.chdir w.cwd path with
      | ok dir => exact ⟨rfl, rfl, rfl, Or.inr ⟨rfl, hargs⟩⟩
      | error msg => exact ⟨rfl, rfl, rfl, Or.inr ⟨rfl, hargs⟩⟩

theorem execute_shell_ok (env : Env) (args : List Str) (w : World) :
    DispatchOk args w (execute_shell env args w) := by
  cases args with
  | nil => exact ⟨rfl, rfl, rfl, Or.inr ⟨rfl, by simp⟩⟩
  | cons arg0 more =>
    rw [execute_shell_cons]
    by_cases hexit : arg0 = "exit".toList
    · subst hexit
      have h1 : ¬ "exit".toList = "cd".toList := by decide
      have h2 : ¬ "exit".toList = "help".toList := by decide
      simp only [h1, h2, if_false, if_true]
      exact ⟨rfl, rfl, rfl, Or.inl ⟨rfl, rfl⟩⟩
    · have hargs : (arg0 :: more).head? ≠ some "exit".toList := by simpa using hexit
      simp only [hexit, if_false]
      split_ifs
      · exact change_directory_ok env _ w hargs
      · exact ⟨rfl, rfl, rfl, Or.inr ⟨rfl, hargs⟩⟩
      · exact display_history_builtin_ok env _ w hargs
      · exact launch_shell_ok env _ w hargs

/-- Every dispatch returns when the history is well formed, the next `fork`
is answered in the parent, and the child is reported exited or signaled. -/
theorem execute_shell_returns (env : Env) (args : List Str) (w : World)
    (l : List (Nat × Str)) (hinv : HistoryInv w.history l)
    (hpid : (env.fork w.forks).pid ≠ 0)
    (hend : (env.fork w.forks).pid > 0 →
      ∃ st ∈ (env.fork w.forks).statuses, WIFEXITED st = true ∨ WIFSIGNALED st = true) :
    ∃ v w2, execute_shell env args w = Outcome.returned v w2 := by
  cases args with
  | nil => exact ⟨1, w, rfl⟩
  | cons arg0 more =>
    rw [execute_shell_cons]
    split_ifs
    · unfold change_directory
      split_ifs
      · exact ⟨_, _, rfl⟩
      · cases more with
        | nil => simp at *
        | cons arg1 more2 =>
          simp only [List.getElem?_cons_succ, List.getElem?_cons_zero]
          cases env.chdir w.cwd arg1 with
          | ok dir => exact ⟨_, _, rfl⟩
          | error msg => exact ⟨_, _, rfl⟩
    · exact ⟨_, _, rfl⟩
    · exact ⟨_, _, rfl⟩
    · exact ⟨_, _, display_history_builtin_eq env _ w l hinv⟩
    · unfold launch_shell
      simp only [hpid, if_false]
      split_ifs with hneg
      · exact ⟨_, _, rfl⟩
      · have hpos : (env.fork w.forks).pid > 0 := by omega
        obtain ⟨pre, t, post, hl, hpre, ht⟩ := first_end_status _ (hend hpos)
        rw [hl, wait_loop_ends _ pre post t _ hpre ht]
        exact ⟨_, _, rfl⟩

/-! ## The loop: lemmas -/

theorem shell_loop_eof (env : Env) (fuel : Nat) (w : World) (hcin : w.cin = [])
    (herr : w.cin_error = none) :
    shell_loop env (fuel + 1) w =
      some (Outcome.exited EXIT_SUCCESS (w.write_cout "> ".toList)) := by
  simp [shell_loop, read_input_line, World.write_cout, hcin, herr]

theorem shell_loop_read_error (env : Env) (fuel : Nat) (w : World) (msg : Str)
    (hcin : w.cin = []) (herr : w.cin_error = some msg) :
    shell_loop env (fuel + 1) w =
      some (Outcome.exited EXIT_FAILURE
        (perror "shell: getline\n".toList msg (w.write_cout "> ".toList))) := by
  simp [shell_loop, read_input_line, World.write_cout, hcin, herr]

/-- One iteration of the loop on a line that is read and recorded. -/
theorem shell_loop_step (env : Env) (fuel : Nat) (w : World) (line : Str)
    (later : List Str) (h : History) (hcin : w.cin = line :: later)
    (hadd : add_to_history (split_input_line line) w.history = some h) :
    shell_loop env (fuel + 1) w =
      match execute_shell env (split_input_line line) (w.after_read later h) with
      | Outcome.returned status w2 =>
        if status ≠ 0 then shell_loop env fuel w2 else some (Outcome.returned () w2)
      | Outcome.exited code w2 => some (Outcome.exited code w2)
      | Outcome.replaced argv w2 => some (Outcome.replaced argv w2)
      | Outcome.blocked w2 => some (Outcome.blocked w2)
      | Outcome.undefined => some Outcome.undefined := by
  simp only [shell_loop, read_input_line, World.write_cout, hcin, hadd, World.after_read]

theorem loopResult_cons (line : Str) (later : List Str) (entries : List Str)
    (hline : is_exit_line line = false) (out : Outcome Unit)
    (h : LoopResult later (entries ++ [history_command (split_input_line line)]) out) :
    LoopResult (line :: later) entries out := by
  have hl : lines_until_exit (line :: later) = line :: lines_until_exit later := by
    simp [lines_until_exit, hline]
  cases out with
  | returned v w2 =>
    obtain ⟨⟨x, hx, hxe⟩, h2, h3⟩ := h
    refine ⟨⟨x, List.mem_cons_of_mem line hx, hxe⟩, ?_, ?_⟩
    · rw [h2, hl]; simp
    · rw [h3, hl]; simp
  | exited code w2 =>
    intro hc
    obtain ⟨h1, h2, h3⟩ := h hc
    refine ⟨?_, ?_, ?_⟩
    · intro x hx
      rcases List.mem_cons.1 hx with rfl | hx
      · exact hline
      · exact h1 x hx
    · rw [h2, hl]; simp
    · rw [h3, hl]; simp
  | replaced argv w2 => trivial
  | blocked w2 => trivial
  | undefined => trivial

/-- The loop ends within one iteration more than there are lines to read,
and the way it ends satisfies `LoopResult`; it stops when the children end
and the input ends at end-of-stream. -/
theorem shell_loop_spec (env : Env) :
    ∀ (cin : List Str) (w : World) (l : List (Nat × Str)) (fuel : Nat),
      w.cin = cin → HistoryInv w.history l → cin.length < fuel →
      ∃ out, shell_loop env fuel w = some out ∧ LoopResult cin (l.map Prod.snd) out ∧
        (env.children_end → w.cin_error = none → LoopStopped out) := by
  intro cin
  induction cin with
  | nil =>
    intro w l fuel hcin hinv hf
    obtain ⟨f, rfl⟩ : ∃ f, fuel = f + 1 := ⟨fuel - 1, by simp at hf; omega⟩
    cases herr : w.cin_error with
    | none =>
      refine ⟨_, shell_loop_eof env f w hcin herr, ?_, fun _ _ => rfl⟩
      intro _
      refine ⟨by simp, ?_, ?_⟩
      · simp [World.write_cout, history_entries, historyInv_list _ l hinv, lines_until_exit]
      · simp [World.write_cout, hcin]
    | some msg =>
      refine ⟨_, shell_loop_read_error env f w msg hcin herr, ?_, fun _ h => by simp at h⟩
      intro hc
      exact absurd hc (by decide)
  | cons line later ih =>
    intro w l fuel hcin hinv hf
    obtain ⟨f, rfl⟩ : ∃ f, fuel = f + 1 := ⟨fuel - 1, by simp at hf; omega⟩
    have hf' : later.length < f := by simp at hf; omega
    obtain ⟨h, hadd, hinv', -⟩ := historyInv_add (split_input_line line) w.history l hinv
    rw [shell_loop_step env f w line later h hcin hadd]
    have hok := execute_shell_ok env (split_input_line line) (w.after_read later h)
    have hret : env.children_end → ∃ v w2,
        execute_shell env (split_input_line line) (w.after_read later h) =
          Outcome.returned v w2 := fun hce =>
      execute_shell_returns env _ (w.after_read later h) _ hinv' (hce _).1 (hce _).2
    generalize execute_shell env (split_input_line line) (w.after_read later h) = o at hok hret
    cases o with
    | returned v w2 =>
      obtain ⟨hh, hc, he, hv⟩ := hok
      simp only [World.after_read] at hh hc he
      rcases hv with ⟨rfl, hexit⟩ | ⟨rfl, hexit⟩
      · have hline : is_exit_line line = true := by
          unfold is_exit_line; exact decide_eq_true hexit
        refine ⟨Outcome.returned () w2, by simp, ?_, fun _ _ => trivial⟩
        refine ⟨⟨line, List.mem_cons_self _ _, hline⟩, ?_, ?_⟩
        · rw [hh]
          simp [history_entries, historyInv_list _ _ hinv', lines_until_exit, hline]
        · simp [lines_until_exit, hline, hc]
      · have hline : is_exit_line line = false := by
          unfold is_exit_line; exact decide_eq_false hexit
        obtain ⟨out, hout, hres, hstop⟩ :=
          ih w2 (l ++ [(w.history.heap.length + 1, history_command (split_input_line line))])
            f hc (by rw [hh]; exact hinv') hf'
        refine ⟨out, by simpa using hout, ?_, fun hce herr => hstop hce (by rw [he]; exact herr)⟩
        apply loopResult_cons line later _ hline
        simpa using hres
    | exited code w2 =>
      refine ⟨Outcome.exited code w2, rfl, ?_, ?_⟩
      · intro hc
        rw [hok] at hc
        exact absurd hc (by decide)
      · intro hce _
        obtain ⟨v, w3, h3⟩ := hret hce
        cases h3
    | replaced argv w2 =>
      refine ⟨Outcome.replaced argv w2, rfl, trivial, ?_⟩
      intro hce _
      obtain ⟨v, w3, h3⟩ := hret hce
      cases h3
    | blocked w2 =>
      refine ⟨Outcome.blocked w2, rfl, trivial, ?_⟩
      intro hce _
      obtain ⟨v, w3, h3⟩ := hret hce
      cases h3
    | undefined =>
      refine ⟨Outcome.undefined, rfl, trivial, ?_⟩
      intro hce _
      obtain ⟨v, w3, h3⟩ := hret hce
      cases h3

/-- Tokens without delimiters: their history summary splits back into the
first two of them. -/
theorem retokenize_summary (args : List Str)
    (hclean : ∀ t ∈ args, t ≠ [] ∧ ∀ c ∈ t, is_delim c = false) :
    tokenize_reference (history_command args) = args.take 2 := by
  have hsp : is_delim ' ' = true := by decide
  rcases args with _ | ⟨a, _ | ⟨b, more⟩⟩
  · decide
  · obtain ⟨ha, hac⟩ := hclean a (by simp)
    have h := tokenize_reference_first a [] ' ' hac hsp
    have h0 : tokenize_reference [] = [] := by decide
    simp only [history_command, append_strings, List.isEmpty_cons, Bool.not_false, if_true,
      List.getD_cons_zero, List.length_cons, List.length_nil]
    simp only [Nat.zero_add, Nat.lt_irrefl, if_false]
    rw [h, h0]
    simp [ha]
  · obtain ⟨ha, hac⟩ := hclean a (by simp)
    obtain ⟨hb, hbc⟩ := hclean b (by simp)
    have h := tokenize_reference_first a b ' ' hac hsp
    have h2 := tokenize_reference_clean b hbc
    have e : history_command (a :: b :: more) = a ++ ' ' :: b := by
      simp [history_command, append_strings]
    rw [e, h, h2]
    simp [ha, hb]

theorem split_input_line_clean (line : Str) :
    ∀ t ∈ split_input_line line, t ≠ [] ∧ ∀ c ∈ t, is_delim c = false := by
  intro t ht
  rw [split_input_line_eq] at ht
  exact ⟨tokenize_reference_ne_nil line t ht, tokenize_reference_no_delim line t ht⟩

/-- The run of the loop on a single blank line: the record step appends the
empty entry and the dispatch does nothing. -/
theorem shell_loop_blank_line (env : Env) (fuel : Nat) (cwd : Str) :
    shell_loop env (fuel + 2) (World.initial cwd [[]] none) =
      some (Outcome.exited EXIT_SUCCESS
        (World.mk (History.mk [Node.mk [] none, Node.mk [] none] (some 1) (some 1))
          ("> ".toList ++ "> ".toList) [] cwd [] none 0 [] [])) := by
  have s1 : split_input_line [] = [] := by
    rw [split_input_line_eq]; decide
  have a1 : add_to_history [] History.initial =
      some (History.mk [Node.mk [] none, Node.mk [] none] (some 1) (some 1)) := by
    decide
  rw [shell_loop_step env (fuel + 1) _ [] [] _ rfl (by rw [s1]; exact a1)]
  rw [s1]
  simp only [execute_shell, List.isEmpty_nil, if_true, ne_eq, one_ne_zero, not_false_eq_true]
  rw [shell_loop_eof env fuel _ rfl rfl]
  rfl

/-! ## The claims about the dispatcher, the builtins, the launcher and the loop -/

/-- C12: dispatching the empty argument vector returns 1, the continue-signal,
and leaves the whole state of the process as it was: nothing is written to
`cout` or `cerr`, no `fork`, `waitpid` or `chdir` call is made, the working
directory and the history are unchanged.  The blank entry of a blank line
comes from the record step of the loop: on the input of one empty line the
history ends with the single entry `""`. -/
theorem C12_empty_vector_is_no_op (env : Env) (w : World) (cwd : Str) :
    execute_shell env [] w = Outcome.returned 1 w ∧
    ∃ w2, shell_loop env 2 (World.initial cwd [[]] none) =
        some (Outcome.exited EXIT_SUCCESS w2) ∧
      history_entries w2.history = some [[]] ∧ w2.cout = "> > ".toList ∧ w2.cerr = [] :=
  ⟨rfl, _, shell_loop_blank_line env 0 cwd, rfl, rfl, rfl⟩

/-- C15: with fewer than two elements `change_directory` makes no `chdir`
call, writes the missing-argument line to `cerr`, changes nothing else and
returns 1; with two or more it calls `chdir` once, on `args[1]`, and returns 1
both when the call succeeds (the working directory changes, nothing is
written) and when it fails (the error goes to `cerr`, the directory stays). -/
theorem C15_change_directory (env : Env) (w : World) :
    (∀ args : List Str, args.length < 2 →
      change_directory env args w =
        Outcome.returned 1
          { w with cerr := w.cerr ++ "shell: expected argument to \"cd\"\n".toList }) ∧
    (∀ (arg0 arg1 : Str) (more : List Str) (dir : Str),
      env.chdir w.cwd arg1 = Except.ok dir →
      change_directory env (arg0 :: arg1 :: more) w =
        Outcome.returned 1 { w with chdirs := w.chdirs ++ [arg1], cwd := dir }) ∧
    (∀ (arg0 arg1 : Str) (more : List Str) (msg : Str),
      env.chdir w.cwd arg1 = Except.error msg →
      change_directory env (arg0 :: arg1 :: more) w =
        Outcome.returned 1
          { w with chdirs := w.chdirs ++ [arg1],
                   cerr := w.cerr ++ ("shell: ".toList ++ msg ++ ['\n']) }) := by
  refine ⟨?_, ?_, ?_⟩
  · intro args h
    simp [change_directory, h, World.write_cerr]
  · intro arg0 arg1 more dir h
    simp [change_directory, h]
  · intro arg0 arg1 more msg h
    simp [change_directory, h, perror, World.write_cerr]

/-- C15 at `cd` alone and at `cd /tmp` and `cd /nowhere extra`, for a system
in which only `/tmp` exists. -/
theorem C15_change_directory_witness :
    change_directory
        (Env.mk (fun _ => ForkOutcome.mk 1 [] false [])
          (fun _ path => if path = "/tmp".toList then Except.ok path
            else Except.error "No such file or directory".toList))
        ["cd".toList] (World.initial "/".toList [] none) =
      Outcome.returned 1
        { World.initial "/".toList [] none with
          cerr := "shell: expected argument to \"cd\"\n".toList } ∧
    change_directory
        (Env.mk (fun _ => ForkOutcome.mk 1 [] false [])
          (fun _ path => if path = "/tmp".toList then Except.ok path
            else Except.error "No such file or directory".toList))
        ["cd".toList, "/tmp".toList] (World.initial "/".toList [] none) =
      Outcome.returned 1
        { World.initial "/".toList [] none with
          chdirs := ["/tmp".toList], cwd := "/tmp".toList } ∧
    change_directory
        (Env.mk (fun _ => ForkOutcome.mk 1 [] false [])
          (fun _ path => if path = "/tmp".toList then Except.ok path
            else Except.error "No such file or directory".toList))
        ["cd".toList, "/nowhere".toList, "extra".toList] (World.initial "/".toList [] none) =
      Outcome.returned 1
        { World.initial "/".toList [] none with
          chdirs := ["/nowhere".toList],
          cerr := "shell: No such file or directory\n".toList } :=
  ⟨(C15_change_directory _ _).1 _ (by decide),
    (C15_change_directory _ _).2.1 "cd".toList "/tmp".toList [] "/tmp".toList rfl,
    (C15_change_directory _ _).2.2 "cd".toList "/nowhere".toList ["extra".toList]
      "No such file or directory".toList rfl⟩

/-- C13: dispatching a vector whose first token is `help` returns 1 and writes
the help text, which lists exactly the four names `cd`, `help`, `exit`,
`history`, each once; these are the names of `built_in_commands`, and a
first token is dispatched to `launch_shell` if and only if it is not one of
them. -/
theorem C13_help_lists_the_builtins (env : Env) (more : List Str) (w : World) :
    execute_shell env ("help".toList :: more) w =
      Outcome.returned 1 (w.write_cout (help_text built_in_commands)) ∧
    help_text built_in_commands =
      ("Type program names and arguments, and hit enter.\n" ++
        "The following are built-in commands:\n" ++
        "  cd\n  help\n  exit\n  history\n" ++
        "Use the man command for information on other programs.\n").toList ∧
    built_in_commands = ["cd".toList, "help".toList, "exit".toList, "history".toList] ∧
    (∀ name : Str, name ∉ built_in_commands ↔
      ∀ (env2 : Env) (more2 : List Str) (w2 : World),
        execute_shell env2 (name :: more2) w2 = launch_shell env2 (name :: more2) w2) := by
  refine ⟨?_, rfl, rfl, ?_⟩
  · rw [execute_shell_cons]
    have h1 : ¬ "help".toList = "cd".toList := by decide
    simp only [h1, if_false, if_true]
    rfl
  · intro name
    constructor
    · intro hname env2 more2 w2
      have h : name ≠ "cd".toList ∧ name ≠ "help".toList ∧ name ≠ "exit".toList ∧
          name ≠ "history".toList := by
        simpa [built_in_commands] using hname
      rw [execute_shell_cons]
      simp only [h.1, h.2.1, h.2.2.1, h.2.2.2, if_false]
    · intro hall hmem
      have hx := hall (Env.mk (fun _ => ForkOutcome.mk 0 [] false []) (fun _ path => Except.ok path))
        [] (World.initial [] [] none)
      have hcases : name = "cd".toList ∨ name = "help".toList ∨ name = "exit".toList ∨
          name = "history".toList := by
        simpa [built_in_commands] using hmem
      rcases hcases with rfl | rfl | rfl | rfl
      · exact absurd hx (by decide)
      · exact absurd hx (by decide)
      · exact absurd hx (by decide)
      · exact absurd hx (by decide)

/-- C14: a non-empty vector is dispatched on `args[0]`, compared exactly:
`cd` runs `change_directory`, `help` runs `display_help`, `exit` runs
`exit_shell`, `history` runs `display_history`, each on the whole vector, and
the result is the handler's; any other first token, such as `CD`, gives
`launch_shell(args)` with the vector unchanged.  The handlers are paired with
the names by position. -/
theorem C14_dispatch_by_first_token (env : Env) (arg0 : Str) (more : List Str) (w : World) :
    execute_shell env (arg0 :: more) w =
      (if arg0 = "cd".toList then change_directory env (arg0 :: more) w
      else if arg0 = "help".toList then display_help env (arg0 :: more) w
      else if arg0 = "exit".toList then exit_shell env (arg0 :: more) w
      else if arg0 = "history".toList then display_history_builtin env (arg0 :: more) w
      else launch_shell env (arg0 :: more) w) ∧
    execute_shell env ("CD".toList :: more) w = launch_shell env ("CD".toList :: more) w ∧
    built_in_commands.zip built_in_functions =
      [("cd".toList, change_directory), ("help".toList, display_help),
        ("exit".toList, exit_shell), ("history".toList, display_history_builtin)] := by
  refine ⟨execute_shell_cons env arg0 more w, ?_, rfl⟩
  rw [execute_shell_cons]
  have h1 : ¬ "CD".toList = "cd".toList := by decide
  have h2 : ¬ "CD".toList = "help".toList := by decide
  have h3 : ¬ "CD".toList = "exit".toList := by decide
  have h4 : ¬ "CD".toList = "history".toList := by decide
  simp only [h1, h2, h3, h4, if_false]

/-- C19: in `launch_shell`, when `fork` fails nothing is waited for and
nothing is run: the error is reported and 1 is returned.  In the parent each
`waitpid` call is on the pid `fork` returned; the call is repeated while the
status reported is neither exited nor signaled, and the loop ends, returning
1, at the first status that is exited or signaled; when no status is exited or
signaled the loop does not end. -/
theorem C19_wait_until_exited_or_signaled (env : Env) (args : List Str) (w : World) :
    ((env.fork w.forks).pid < 0 →
      launch_shell env args w =
        Outcome.returned 1
          { w with forks := w.forks + 1,
                   cerr := w.cerr ++ ("shell: ".toList ++ (env.fork w.forks).error ++ ['\n']) }) ∧
    ((env.fork w.forks).pid > 0 →
      ∀ (pre post : List WaitStatus) (t : WaitStatus),
        (env.fork w.forks).statuses = pre ++ t :: post →
        (∀ st ∈ pre, WIFEXITED st = false ∧ WIFSIGNALED st = false) →
        (WIFEXITED t = true ∨ WIFSIGNALED t = true) →
        launch_shell env args w =
          Outcome.returned 1
            { w with forks := w.forks + 1,
                     waits := w.waits ++
                       List.replicate (pre.length + 1) (env.fork w.forks).pid }) ∧
    ((env.fork w.forks).pid > 0 →
      (∀ st ∈ (env.fork w.forks).statuses, WIFEXITED st = false ∧ WIFSIGNALED st = false) →
      launch_shell env args w =
        Outcome.blocked
          { w with forks := w.forks + 1,
                   waits := w.waits ++
                     List.replicate ((env.fork w.forks).statuses.length + 1)
                       (env.fork w.forks).pid }) := by
  refine ⟨?_, ?_, ?_⟩
  · intro hneg
    have h0 : (env.fork w.forks).pid ≠ 0 := by omega
    simp [launch_shell, h0, hneg, perror, World.write_cerr]
  · intro hpos pre post t hst hpre ht
    have h0 : (env.fork w.forks).pid ≠ 0 := by omega
    have hneg : ¬ (env.fork w.forks).pid < 0 := by omega
    simp only [launch_shell, h0, hneg, if_false, hst]
    rw [wait_loop_ends _ pre post t _ hpre ht]
  · intro hpos hall
    have h0 : (env.fork w.forks).pid ≠ 0 := by omega
    have hneg : ¬ (env.fork w.forks).pid < 0 := by omega
    simp only [launch_shell, h0, hneg, if_false]
    rw [wait_loop_blocks _ _ _ hall]

/-- C19 at a child with pid 7 that is reported stopped twice and then exited
(three `waitpid` calls on pid 7, a later status is not waited for), at a
failed `fork`, and at a child that is only ever reported stopped. -/
theorem C19_wait_until_exited_or_signaled_witness :
    launch_shell
        (Env.mk (fun _ => ForkOutcome.mk 7 [] false
          [WaitStatus.stopped 19, WaitStatus.stopped 20, WaitStatus.exited 0,
            WaitStatus.signaled 9]) (fun _ path => Except.ok path))
        ["ls".toList] (World.initial [] [] none) =
      Outcome.returned 1 { World.initial [] [] none with forks := 1, waits := [7, 7, 7] } ∧
    launch_shell
        (Env.mk (fun _ => ForkOutcome.mk (-1) "Resource temporarily unavailable".toList false [])
          (fun _ path => Except.ok path))
        ["ls".toList] (World.initial [] [] none) =
      Outcome.returned 1
        { World.initial [] [] none with
          forks := 1, cerr := "shell: Resource temporarily unavailable\n".toList } ∧
    launch_shell
        (Env.mk (fun _ => ForkOutcome.mk 7 [] false [WaitStatus.stopped 19])
          (fun _ path => Except.ok path))
        ["ls".toList] (World.initial [] [] none) =
      Outcome.blocked { World.initial [] [] none with forks := 1, waits := [7, 7] } :=
  ⟨(C19_wait_until_exited_or_signaled _ _ _).2.1 (by decide)
      [WaitStatus.stopped 19, WaitStatus.stopped 20] [WaitStatus.signaled 9]
      (WaitStatus.exited 0) rfl (by decide) (by decide),
    (C19_wait_until_exited_or_signaled _ _ _).1 (by decide),
    (C19_wait_until_exited_or_signaled _ _ _).2.2 (by decide) (by decide)⟩

/-- C20: for every line, with `args` the tokens of the line and `e` the entry
`add_to_history` stores for `args` (in any reachable history), the tokens of
`e` are the first two elements of `args`, or all of `args` when it has fewer
than two. -/
theorem C20_summary_retokenizes (calls : List (List Str)) (line : Str) :
    ∃ s s' entries e, record_all calls History.initial = some s ∧
      add_to_history (split_input_line line) s = some s' ∧
      history_entries s' = some (entries ++ [e]) ∧
      split_input_line e = (split_input_line line).take (min 2 (split_input_line line).length) := by
  obtain ⟨s, s', l, a, hs, hs', -, hl', -, -⟩ := record_then_add calls (split_input_line line)
  refine ⟨s, s', l.map Prod.snd, history_command (split_input_line line), hs, hs', ?_, ?_⟩
  · simp [history_entries, hl']
  · rw [split_input_line_eq (history_command _),
      retokenize_summary _ (split_input_line_clean line)]
    rcases split_input_line line with _ | ⟨a, _ | ⟨b, more⟩⟩ <;> simp

/-- The run of the loop on the two lines `help` and `exit`. -/
theorem shell_loop_help_exit (env : Env) (fuel : Nat) (cwd : Str) (err : Option Str) :
    shell_loop env (fuel + 2) (World.initial cwd ["help".toList, "exit".toList] err) =
      some (Outcome.returned ()
        (World.mk
          (History.mk
            [Node.mk [] none, Node.mk "help ".toList (some 3), Node.mk [] none,
              Node.mk "exit ".toList none]
            (some 1) (some 3))
          ("> ".toList ++ help_text built_in_commands ++ "> ".toList) [] cwd [] err 0 [] [])) := by
  have s1 : split_input_line "help".toList = ["help".toList] := by
    rw [split_input_line_eq]; decide
  have s2 : split_input_line "exit".toList = ["exit".toList] := by
    rw [split_input_line_eq]; decide
  have a1 : add_to_history ["help".toList] History.initial =
      some (History.mk [Node.mk [] none, Node.mk "help ".toList none] (some 1) (some 1)) := by
    decide
  have a2 : add_to_history ["exit".toList]
      (History.mk [Node.mk [] none, Node.mk "help ".toList none] (some 1) (some 1)) =
      some (History.mk
        [Node.mk [] none, Node.mk "help ".toList (some 3), Node.mk [] none,
          Node.mk "exit ".toList none] (some 1) (some 3)) := by
    decide
  have n1 : ¬ "help".toList = "cd".toList := by decide
  have n2 : ¬ "exit".toList = "cd".toList := by decide
  have n3 : ¬ "exit".toList = "help".toList := by decide
  rw [shell_loop_step env (fuel + 1) _ "help".toList ["exit".toList] _ rfl
    (by rw [s1]; exact a1)]
  rw [s1, execute_shell_cons]
  simp only [n1, if_false, if_true, display_help, ne_eq, one_ne_zero, not_false_eq_true]
  rw [shell_loop_step env fuel _ "exit".toList [] _ rfl (by rw [s2]; exact a2)]
  rw [s2, execute_shell_cons]
  simp only [n2, n3, if_false, if_true, exit_shell, ne_eq, not_true_eq_false]
  rfl

/-- The run of `main` on the two lines `help` and `exit`. -/
theorem main_help_exit (env : Env) (fuel : Nat) (cwd : Str) (err : Option Str) :
    main env (fuel + 2) (World.initial cwd ["help".toList, "exit".toList] err) =
      some (Outcome.returned EXIT_SUCCESS
        (World.mk
          (History.mk
            [Node.mk [] none, Node.mk "help ".toList (some 3), Node.mk [] none,
              Node.mk "exit ".toList none]
            (some 1) (some 3))
          ("> ".toList ++ help_text built_in_commands ++ "> ".toList) [] cwd [] err 0 [] [])) := by
  simp only [main, shell_loop_help_exit]

/-- The run of the loop on the single line `history`: the listing already
holds the entry of the line itself. -/
theorem shell_loop_history_line (env : Env) (fuel : Nat) (cwd : Str) :
    shell_loop env (fuel + 2) (World.initial cwd ["history".toList] none) =
      some (Outcome.exited EXIT_SUCCESS
        (World.mk
          (History.mk [Node.mk [] none, Node.mk "history ".toList none] (some 1) (some 1))
          ("> ".toList ++ " 1 history \n".toList ++ "> ".toList) [] cwd [] none 0 [] [])) := by
  have s1 : split_input_line "history".toList = ["history".toList] := by
    rw [split_input_line_eq]; decide
  have a1 : add_to_history ["history".toList] History.initial =
      some (History.mk [Node.mk [] none, Node.mk "history ".toList none] (some 1) (some 1)) := by
    decide
  have d1 : display_history 3 ["history".toList]
      (History.mk [Node.mk [] none, Node.mk "history ".toList none] (some 1) (some 1)) =
      some (" 1 history \n".toList, 1) := by
    decide
  have n1 : ¬ "history".toList = "cd".toList := by decide
  have n2 : ¬ "history".toList = "help".toList := by decide
  have n3 : ¬ "history".toList = "exit".toList := by decide
  rw [shell_loop_step env (fuel + 1) _ "history".toList [] _ rfl (by rw [s1]; exact a1)]
  rw [s1, execute_shell_cons]
  simp only [n1, n2, n3, if_false, if_true]
  have e1 : display_history_builtin env ["history".toList]
      ((World.initial cwd ["history".toList] none).after_read []
        (History.mk [Node.mk [] none, Node.mk "history ".toList none] (some 1) (some 1))) =
      Outcome.returned 1
        (World.mk
          (History.mk [Node.mk [] none, Node.mk "history ".toList none] (some 1) (some 1))
          ("> ".toList ++ " 1 history \n".toList) [] cwd [] none 0 [] []) := by
    unfold display_history_builtin
    show (match display_history 3 ["history".toList]
      (History.mk [Node.mk [] none, Node.mk "history ".toList none] (some 1) (some 1)) with
      | none => Outcome.undefined
      | some (out, value) => Outcome.returned value _) = _
    rw [d1]
    rfl
  rw [e1]
  simp only [ne_eq, one_ne_zero, not_false_eq_true, if_true]
  rw [shell_loop_eof env fuel _ rfl rfl]
  rfl

/-- C16, as stated, fails: on the lines `help` and `exit` the run ends with
success and two history entries, but they are `help` and `exit` each followed
by a space, not `help` and `exit`. -/
theorem C16_counterexample :
    ∃ w, main (Env.mk (fun _ => ForkOutcome.mk (-1) [] false []) (fun _ path => Except.ok path))
        2 (World.initial [] ["help".toList, "exit".toList] none) =
        some (Outcome.returned EXIT_SUCCESS w) ∧
      history_entries w.history = some ["help ".toList, "exit ".toList] ∧
      history_entries w.history ≠ some ["help".toList, "exit".toList] :=
  ⟨_, main_help_exit _ 0 [] none, by decide, by decide⟩

/-- C16, amended: on the input made of the line `help` and the line `exit`,
for every number of iterations allowed from two on, `main` returns
`EXIT_SUCCESS`; the text written to `cout` is the prompt, the help banner and
the prompt again, nothing is written to `cerr`, both lines are read, and the
history holds exactly two entries, `help` followed by a space and then `exit`
followed by a space. -/
theorem C16_help_then_exit (env : Env) (fuel : Nat) (cwd : Str) (cin_error : Option Str) :
    ∃ w, main env (fuel + 2) (World.initial cwd ["help".toList, "exit".toList] cin_error) =
        some (Outcome.returned EXIT_SUCCESS w) ∧
      w.cout = "> ".toList ++ help_text built_in_commands ++ "> ".toList ∧
      w.cerr = [] ∧ w.cin = [] ∧
      history_entries w.history = some ["help ".toList, "exit ".toList] :=
  ⟨_, main_help_exit env fuel cwd cin_error, rfl, rfl, rfl, rfl⟩

/-- C17: on an input at end-of-stream from the start the process exits with
`EXIT_SUCCESS`, only the prompt is written and the history has no entry; and
in any state, when the input is at end-of-stream the iteration writes the
prompt and the process exits with `EXIT_SUCCESS`, the history and all the
rest of the state being as they were (nothing is recorded or dispatched). -/
theorem C17_end_of_input (env : Env) (fuel : Nat) (cwd : Str) :
    main env (fuel + 1) (World.initial cwd [] none) =
      some (Outcome.exited EXIT_SUCCESS
        { World.initial cwd [] none with cout := "> ".toList }) ∧
    history_entries (World.initial cwd [] none).history = some [] ∧
    (∀ w : World, w.cin = [] → w.cin_error = none →
      shell_loop env (fuel + 1) w =
        some (Outcome.exited EXIT_SUCCESS { w with cout := w.cout ++ "> ".toList }) ∧
      main env (fuel + 1) w =
        some (Outcome.exited EXIT_SUCCESS { w with cout := w.cout ++ "> ".toList })) := by
  have key : ∀ w : World, w.cin = [] → w.cin_error = none →
      shell_loop env (fuel + 1) w =
        some (Outcome.exited EXIT_SUCCESS { w with cout := w.cout ++ "> ".toList }) :=
    fun w h1 h2 => shell_loop_eof env fuel w h1 h2
  refine ⟨?_, rfl, fun w h1 h2 => ⟨key w h1 h2, ?_⟩⟩
  · simp only [main, key (World.initial cwd [] none) rfl rfl]
    rfl
  · simp only [main, key w h1 h2]

/-- C17 at the state reached after the lines `help` and `cd /tmp`, when the
input then is at end-of-stream. -/
theorem C17_end_of_input_witness :
    shell_loop (Env.mk (fun _ => ForkOutcome.mk (-1) [] false []) (fun _ path => Except.ok path)) 1
        (World.mk
          (History.mk
            [Node.mk [] none, Node.mk "help ".toList (some 3), Node.mk [] none,
              Node.mk "cd /tmp".toList none] (some 1) (some 3))
          "> banner> ".toList [] "/tmp".toList [] none 0 ["/tmp".toList] []) =
      some (Outcome.exited EXIT_SUCCESS
        (World.mk
          (History.mk
            [Node.mk [] none, Node.mk "help ".toList (some 3), Node.mk [] none,
              Node.mk "cd /tmp".toList none] (some 1) (some 3))
          "> banner> > ".toList [] "/tmp".toList [] none 0 ["/tmp".toList] [])) :=
  ((C17_end_of_input _ 0 []).2.2 _ rfl rfl).1

/-- The run of the loop on the single line `exit`. -/
theorem shell_loop_exit_line (env : Env) (fuel : Nat) (cwd : Str) (err : Option Str) :
    shell_loop env (fuel + 1) (World.initial cwd ["exit".toList] err) =
      some (Outcome.returned ()
        (World.mk
          (History.mk [Node.mk [] none, Node.mk "exit ".toList none] (some 1) (some 1))
          "> ".toList [] cwd [] err 0 [] [])) := by
  have s1 : split_input_line "exit".toList = ["exit".toList] := by
    rw [split_input_line_eq]; decide
  have a1 : add_to_history ["exit".toList] History.initial =
      some (History.mk [Node.mk [] none, Node.mk "exit ".toList none] (some 1) (some 1)) := by
    decide
  have n1 : ¬ "exit".toList = "cd".toList := by decide
  have n2 : ¬ "exit".toList = "help".toList := by decide
  rw [shell_loop_step env fuel _ "exit".toList [] _ rfl (by rw [s1]; exact a1)]
  rw [s1, execute_shell_cons]
  simp only [n1, n2, if_false, if_true, exit_shell, ne_eq, not_true_eq_false]
  rfl

/-- The closed form of the entry `add_to_history` stores. -/
theorem history_command_cases (args : List Str) :
    history_command args =
      match args with
      | [] => []
      | [token] => token ++ [' ']
      | token :: second :: _ => token ++ [' '] ++ second := by
  rcases args with _ | ⟨a, _ | ⟨b, more⟩⟩ <;> simp [history_command, append_strings]

/-- C18, as stated, fails: on the input of the single line `exit` the loop
stops with one history entry, but the entry is `exit` followed by a space,
not the two-token summary of the line, which is `exit`. -/
theorem C18_counterexample :
    ∃ w, shell_loop
        (Env.mk (fun _ => ForkOutcome.mk (-1) [] false []) (fun _ path => Except.ok path)) 2
        (World.initial [] ["exit".toList] none) = some (Outcome.returned () w) ∧
      history_entries w.history = some ["exit ".toList] ∧
      history_entries w.history ≠
        some (["exit".toList].map (fun line => summary_reference (split_input_line line))) := by
  refine ⟨_, shell_loop_exit_line _ 1 [] none, by decide, ?_⟩
  have s1 : split_input_line "exit".toList = ["exit".toList] := by
    rw [split_input_line_eq]; decide
  simp only [List.map, s1]
  decide

/-- C18, amended: from the start of the program, on every input, the loop
ends within one iteration more than there are lines.  When it stops
(stop-signal or end-of-input) the history holds one entry per line read, in
order, for the lines up to and including the first whose first token is
`exit`, or for all lines when there is none, and the lines after that first
`exit` line are still unread; the loop does stop when every child ends and
the input ends at end-of-stream (first conjunct).  The entry of a line is
what `add_to_history` stores for its tokens: nothing for no token, the token
followed by a space for one token, the first token, a space and the second
token for two or more (second conjunct); a blank line contributes the empty
entry (third conjunct).  Every line is recorded before it is dispatched: in
any state with a well-formed history and a line to read, the iteration calls
`execute_shell` in a state whose history already ends with the entry of that
line (fourth conjunct), so that on the line `history` the listing shows the
entry of that line (fifth conjunct). -/
theorem C18_one_entry_per_line (env : Env) (cwd : Str) (cin : List Str)
    (cin_error : Option Str) (fuel : Nat) (hfuel : cin.length < fuel) :
    (∃ out, shell_loop env fuel (World.initial cwd cin cin_error) = some out ∧
      LoopResult cin [] out ∧
      (env.children_end → cin_error = none → LoopStopped out)) ∧
    (∀ args : List Str, history_command args =
      match args with
      | [] => []
      | [token] => token ++ [' ']
      | token :: second :: _ => token ++ [' '] ++ second) ∧
    (∀ line : Str, (∀ c ∈ line, c ∈ SHELL_TOK_DELIM) →
      history_command (split_input_line line) = []) ∧
    (∀ (w : World) (l : List (Nat × Str)) (line : Str) (later : List Str) (n : Nat),
      HistoryInv w.history l → w.cin = line :: later →
      ∃ h, add_to_history (split_input_line line) w.history = some h ∧
        history_entries h =
          some (l.map Prod.snd ++ [history_command (split_input_line line)]) ∧
        (w.after_read later h).history = h ∧
        shell_loop env (n + 1) w =
          match execute_shell env (split_input_line line) (w.after_read later h) with
          | Outcome.returned status w2 =>
            if status ≠ 0 then shell_loop env n w2 else some (Outcome.returned () w2)
          | Outcome.exited code w2 => some (Outcome.exited code w2)
          | Outcome.replaced argv w2 => some (Outcome.replaced argv w2)
          | Outcome.blocked w2 => some (Outcome.blocked w2)
          | Outcome.undefined => some Outcome.undefined) ∧
    shell_loop env 2 (World.initial cwd ["history".toList] none) =
      some (Outcome.exited EXIT_SUCCESS
        (World.mk
          (History.mk [Node.mk [] none, Node.mk "history ".toList none] (some 1) (some 1))
          ("> ".toList ++ " 1 history \n".toList ++ "> ".toList) [] cwd [] none 0 [] [])) := by
  refine ⟨?_, history_command_cases, ?_, ?_, shell_loop_history_line env 0 cwd⟩
  · have h := shell_loop_spec env cin (World.initial cwd cin cin_error) [] fuel rfl
      historyInv_initial hfuel
    simpa using h
  · intro line hline
    rw [split_input_line_eq,
      tokenize_reference_all_delims line (fun c hc => (mem_delim_iff c).1 (hline c hc))]
    rfl
  · intro w l line later n hinv hcin
    obtain ⟨h, hadd, hinv', -⟩ := historyInv_add (split_input_line line) w.history l hinv
    refine ⟨h, hadd, ?_, rfl, shell_loop_step env n w line later h hcin hadd⟩
    simp [history_entries, historyInv_list _ _ hinv']

/-- C18 (amended) at the input `ls -l`, a blank line, `help`, `exit`,
`never read`, where the child of `ls` (pid 7) is reported exited: the loop
stops, and the entries it leaves are `ls -l`, the empty entry, `help` with a
space and `exit` with a space. -/
theorem C18_one_entry_per_line_witness :
    ["ls -l".toList, "".toList, "help".toList, "exit".toList, "never read".toList].length < 6 ∧
    (∃ out, shell_loop
        (Env.mk (fun _ => ForkOutcome.mk 7 [] false [WaitStatus.exited 0])
          (fun _ path => Except.ok path)) 6
        (World.initial []
          ["ls -l".toList, "".toList, "help".toList, "exit".toList, "never read".toList]
          none) = some out ∧
      LoopResult
        ["ls -l".toList, "".toList, "help".toList, "exit".toList, "never read".toList] [] out ∧
      LoopStopped out) ∧
    (lines_until_exit
        ["ls -l".toList, "".toList, "help".toList, "exit".toList, "never read".toList]).map
        (fun line => history_command (split_input_line line)) =
      ["ls -l".toList, "".toList, "help ".toList, "exit ".toList] := by
  have hce : Env.children_end
      (Env.mk (fun _ => ForkOutcome.mk 7 [] false [WaitStatus.exited 0])
        (fun _ path => Except.ok path)) :=
    fun _ => ⟨by show (7 : Int) ≠ 0; decide,
      fun _ => ⟨WaitStatus.exited 0, by show WaitStatus.exited 0 ∈ [WaitStatus.exited 0]; decide,
        by decide⟩⟩
  obtain ⟨out, h1, h2, h3⟩ :=
    (C18_one_entry_per_line
      (Env.mk (fun _ => ForkOutcome.mk 7 [] false [WaitStatus.exited 0])
        (fun _ path => Except.ok path)) []
      ["ls -l".toList, "".toList, "help".toList, "exit".toList, "never read".toList]
      none 6 (by decide)).1
  refine ⟨by decide, ⟨out, h1, h2, h3 hce rfl⟩, ?_⟩
  simp only [lines_until_exit, is_exit_line, split_input_line_eq]
  decide

end Byteshell
